import Mathlib

/-!
Verification of the filter-state / URL codec, the filter-sort engine, the
schema validator and the data loader of the client-side catalog browser
(`src/app.js`).

The JavaScript source is shallowly embedded:
* JS numbers are modelled as `ℚ` (every comparison the program performs on
  finite doubles is exact, so order-only reasoning transfers);
* a URL query string is modelled as its ordered list of decoded
  key/value pairs (`URLSearchParams` serialisation and parsing are mutually
  inverse on such lists, so percent-encoding is abstracted away);
* JS builtins used by the program (`String.prototype.split`, `Array.join`,
  `isNaN`, `parseFloat`, `Array.prototype.sort`, `localeCompare`,
  `Date` parsing) are given explicit executable models, each documented at
  its definition.
-/

namespace Catalog

/-! ### Models of JS string builtins -/

/-- Whitespace recognised when trimming strings (model of the whitespace
skipped by `String.prototype.trim` and by `isNaN` / `parseFloat`
coercion). -/
def isWS (c : Char) : Bool :=
  c = ' ' || c = '\t' || c = '\n' || c = '\r'

/-- Model of `String.prototype.toLowerCase` (ASCII case mapping). -/
def jsToLower (s : String) : String :=
  String.mk (s.data.map Char.toLower)

/-- Model of `String.prototype.trim`: drop whitespace from both ends. -/
def jsTrim (s : String) : String :=
  String.mk (((s.data.dropWhile isWS).reverse.dropWhile isWS).reverse)

/-- Model of `String.prototype.split` with a single-character separator:
splitting never drops anything, `"".split(sep) = [""]`, and adjacent
separators produce empty segments. `splitCharAux sep cs acc` processes the
remaining characters `cs` with `acc` holding the current segment reversed. -/
def splitCharAux (sep : Char) : List Char → List Char → List String
  | [], acc => [String.mk acc.reverse]
  | c :: cs, acc =>
    if c = sep then String.mk acc.reverse :: splitCharAux sep cs []
    else splitCharAux sep cs (c :: acc)

/-- Model of `s.split(sep)` for a one-character separator. -/
def jsSplit (sep : Char) (s : String) : List String :=
  splitCharAux sep s.data []

/-- Model of `Array.prototype.join(sep)` for a one-character separator. -/
def jsJoin (sep : Char) : List String → String
  | [] => ""
  | [s] => s
  | s :: t :: rest => s ++ String.singleton sep ++ jsJoin sep (t :: rest)

/-- Model of the syntax of a JS exponent tail following `e`/`E`:
an optional sign then at least one digit. -/
def expTailOk : List Char → Bool
  | '+' :: t => !t.isEmpty && t.all Char.isDigit
  | '-' :: t => !t.isEmpty && t.all Char.isDigit
  | t => !t.isEmpty && t.all Char.isDigit

/-- Model of an optional JS exponent part (empty, or `e`/`E` then
`expTailOk`). -/
def expPartOk : List Char → Bool
  | [] => true
  | 'e' :: t => expTailOk t
  | 'E' :: t => expTailOk t
  | _ => false

/-- Model of the syntax of an unsigned JS decimal mantissa with optional
exponent: `digits`, `digits.digits`, `digits.`, or `.digits`, each followed
by an optional exponent part. -/
def mantissaOk (cs : List Char) : Bool :=
  let ds := cs.takeWhile Char.isDigit
  let rest := cs.dropWhile Char.isDigit
  match rest with
  | '.' :: r =>
    let fs := r.takeWhile Char.isDigit
    let rest2 := r.dropWhile Char.isDigit
    (!ds.isEmpty || !fs.isEmpty) && expPartOk rest2
  | _ => !ds.isEmpty && expPartOk rest

/-- Model of an unsigned `StrDecimalLiteral` body: `Infinity` or a decimal
mantissa with optional exponent. -/
def unsignedDecOk (cs : List Char) : Bool :=
  if cs = ['I', 'n', 'f', 'i', 'n', 'i', 't', 'y'] then true else mantissaOk cs

/-- Model of the whole-string numeric syntax accepted by JS `ToNumber` on a
trimmed, non-empty string: an optionally signed decimal literal, or an
unsigned hexadecimal / octal / binary integer literal. -/
def numBodyOk : List Char → Bool
  | '+' :: r => unsignedDecOk r
  | '-' :: r => unsignedDecOk r
  | '0' :: 'x' :: r => !r.isEmpty && r.all (fun c => c.isDigit || ('a' ≤ c && c ≤ 'f') || ('A' ≤ c && c ≤ 'F'))
  | '0' :: 'X' :: r => !r.isEmpty && r.all (fun c => c.isDigit || ('a' ≤ c && c ≤ 'f') || ('A' ≤ c && c ≤ 'F'))
  | '0' :: 'o' :: r => !r.isEmpty && r.all (fun c => '0' ≤ c && c ≤ '7')
  | '0' :: 'O' :: r => !r.isEmpty && r.all (fun c => '0' ≤ c && c ≤ '7')
  | '0' :: 'b' :: r => !r.isEmpty && r.all (fun c => c = '0' || c = '1')
  | '0' :: 'B' :: r => !r.isEmpty && r.all (fun c => c = '0' || c = '1')
  | cs => unsignedDecOk cs

/-- Model of the JS global `isNaN` applied to a string: the string is
whitespace-trimmed; an empty remainder coerces to `0` (not NaN); otherwise
the result is NaN exactly when the remainder is not numeric syntax. -/
def jsIsNaN (s : String) : Bool :=
  let t := ((s.data.dropWhile isWS).reverse.dropWhile isWS).reverse
  if t.isEmpty then false else !numBodyOk t

/-! ### FilterState and the URL codec (`src/app.js` lines 14-48) -/

/-- The normalized filter state (`defaultState`'s shape in `src/app.js`):
`q` free text, `categories` an ordered list of category names, `priceMin`
and `priceMax` numeric-or-empty strings, `inStockOnly` a flag, and `sort`
a sort-mode string. -/
@[ext]
structure FilterState where
  q : String
  categories : List String
  priceMin : String
  priceMax : String
  inStockOnly : Bool
  sort : String
  deriving DecidableEq, Repr

/-- The record `defaultState` from `src/app.js` lines 14-21. -/
def defaultState : FilterState :=
  { q := ""
    categories := []
    priceMin := ""
    priceMax := ""
    inStockOnly := false
    sort := "price_asc" }

/-- The five sort modes recognised by the `switch` in `applyFilters`. -/
def enumSorts : List String :=
  ["price_asc", "price_desc", "name_asc", "name_desc", "newest"]

/-- A URL query is modelled as its ordered list of decoded key/value
pairs. `getParam ps k` models `URLSearchParams.prototype.get`: the value of
the first pair with key `k`, or `null` (`none`) when absent. -/
def getParam (ps : List (String × String)) (k : String) : Option String :=
  (ps.find? (fun kv => kv.1 == k)).map (fun kv => kv.2)

/-- Model of `URLSearchParams.prototype.has` as used by `readStateFromURL`. -/
def hasParam (ps : List (String × String)) (k : String) : Bool :=
  (getParam ps k).isSome

/-- Decoder `readStateFromURL` from `src/app.js` lines 23-35: start from the
defaults and override each field whose parameter is present; `cat` splits
on commas and drops empty segments (`filter(Boolean)`), `stock` compares
against the literal `"1"`, every other recognised parameter is copied
verbatim. -/
def readStateFromURL (ps : List (String × String)) : FilterState :=
  { q := match getParam ps "q" with
      | some v => v
      | none => defaultState.q
    categories := match getParam ps "cat" with
      | some v => (jsSplit ',' v).filter (fun seg => !(seg == ""))
      | none => defaultState.categories
    priceMin := match getParam ps "min" with
      | some v => v
      | none => defaultState.priceMin
    priceMax := match getParam ps "max" with
      | some v => v
      | none => defaultState.priceMax
    inStockOnly := match getParam ps "stock" with
      | some v => v == "1"
      | none => defaultState.inStockOnly
    sort := match getParam ps "sort" with
      | some v => v
      | none => defaultState.sort }

/-- Encoder `syncStateWithURL` from `src/app.js` lines 37-48, as the ordered list
of parameters it sets: `q` when truthy (non-empty), `cat` when the list is
non-empty (joined with commas), `min`/`max` when non-empty and not `isNaN`,
`stock` (as `"1"`) when the flag is set, and `sort` when truthy and
different from the default sort. -/
def syncStateWithURL (s : FilterState) : List (String × String) :=
  (if s.q ≠ "" then [("q", s.q)] else []) ++
  (if s.categories ≠ [] then [("cat", jsJoin ',' s.categories)] else []) ++
  (if s.priceMin ≠ "" ∧ jsIsNaN s.priceMin = false then [("min", s.priceMin)] else []) ++
  (if s.priceMax ≠ "" ∧ jsIsNaN s.priceMax = false then [("max", s.priceMax)] else []) ++
  (if s.inStockOnly then [("stock", "1")] else []) ++
  (if s.sort ≠ "" ∧ s.sort ≠ defaultState.sort then [("sort", s.sort)] else [])

/-- The six parameter names `readStateFromURL` recognises. -/
def recognizedKeys : List String :=
  ["q", "cat", "min", "max", "stock", "sort"]

/-! ### Models of JS numeric and date builtins used by `applyFilters` -/

/-- Numeric value of a digit string (most significant first). -/
def digitsVal (ds : List Char) : ℕ :=
  ds.foldl (fun n c => 10 * n + (c.toNat - 48)) 0

/-- Value of an optional exponent tail after `e`/`E` in `parseFloat`:
an optional sign then the leading digits; an invalid tail contributes
exponent `0` (the exponent is then simply not part of the parsed prefix). -/
def expVal : List Char → ℤ
  | '+' :: t => (digitsVal (t.takeWhile Char.isDigit) : ℤ)
  | '-' :: t => -(digitsVal (t.takeWhile Char.isDigit) : ℤ)
  | t => (digitsVal (t.takeWhile Char.isDigit) : ℤ)

/-- Whether an exponent tail contains at least one digit (so that
`parseFloat` consumes it as part of the numeric prefix). -/
def expValid : List Char → Bool
  | '+' :: t => !(t.takeWhile Char.isDigit).isEmpty
  | '-' :: t => !(t.takeWhile Char.isDigit).isEmpty
  | t => !(t.takeWhile Char.isDigit).isEmpty

/-- A JS number as produced by a successful `parseFloat`: a finite value
(`ℚ`) or one of the two infinities (`parseFloat("Infinity")` is
`Infinity`, and `isNaN(Infinity)` is `false`). -/
inductive FloatVal where
  | fin (q : ℚ)
  | inf
  | negInf
  deriving DecidableEq, Repr

/-- The comparison `v <= p` of a parsed bound `v` against a finite price
`p` (the `it.price >= min` test of `src/app.js` line 120): a `min` of
`Infinity` admits no finite price, a `min` of `-Infinity` admits all. -/
def FloatVal.leQ : FloatVal → ℚ → Prop
  | .fin m, p => m ≤ p
  | .inf, _ => False
  | .negInf, _ => True

instance : ∀ (v : FloatVal) (p : ℚ), Decidable (FloatVal.leQ v p)
  | .fin m, p => inferInstanceAs (Decidable (m ≤ p))
  | .inf, _ => inferInstanceAs (Decidable False)
  | .negInf, _ => inferInstanceAs (Decidable True)

/-- The comparison `p <= v` of a finite price `p` against a parsed bound
`v` (the `it.price <= max` test of `src/app.js` line 121). -/
def FloatVal.geQ : FloatVal → ℚ → Prop
  | .fin m, p => p ≤ m
  | .inf, _ => True
  | .negInf, _ => False

instance : ∀ (v : FloatVal) (p : ℚ), Decidable (FloatVal.geQ v p)
  | .fin m, p => inferInstanceAs (Decidable (p ≤ m))
  | .inf, _ => inferInstanceAs (Decidable True)
  | .negInf, _ => inferInstanceAs (Decidable False)

/-- Model of the JS global `parseFloat` on a string: skip leading
whitespace, then parse the longest prefix of the form
`[sign] Infinity` or `[sign] digits [. digits] [e|E [sign] digits]`;
`none` models a `NaN` result (no digits and no `Infinity` literal). -/
def parseFloatQ (s : String) : Option FloatVal :=
  let cs := s.data.dropWhile isWS
  let neg : Bool := match cs with
    | '-' :: _ => true
    | _ => false
  let cs1 := match cs with
    | '+' :: r => r
    | '-' :: r => r
    | r => r
  if ['I', 'n', 'f', 'i', 'n', 'i', 't', 'y'].isPrefixOf cs1 then
    some (if neg then .negInf else .inf)
  else
    let sgn : ℤ := if neg then -1 else 1
    let ds := cs1.takeWhile Char.isDigit
    let r1 := cs1.dropWhile Char.isDigit
    let fs := match r1 with
      | '.' :: r2 => r2.takeWhile Char.isDigit
      | _ => []
    let r3 := match r1 with
      | '.' :: r2 => r2.dropWhile Char.isDigit
      | _ => r1
    if ds.isEmpty && fs.isEmpty then none
    else
      let e : ℤ := match r3 with
        | 'e' :: r4 => if expValid r4 then expVal r4 else 0
        | 'E' :: r4 => if expValid r4 then expVal r4 else 0
        | _ => 0
      let mantNum : ℕ := digitsVal ds * 10 ^ fs.length + digitsVal fs
      some (.fin (mkRat (sgn * (mantNum : ℤ) * ((10 ^ e.toNat : ℕ) : ℤ))
        (10 ^ fs.length * 10 ^ (-e).toNat)))

/-- Whether a proleptic Gregorian year is a leap year. -/
def isLeapYear (y : ℕ) : Bool :=
  (y % 4 == 0 && y % 100 != 0) || y % 400 == 0

/-- Number of days in month `m` of year `y`. -/
def daysInMonth (y m : ℕ) : ℕ :=
  if m = 2 then (if isLeapYear y then 29 else 28)
  else if m = 4 ∨ m = 6 ∨ m = 9 ∨ m = 11 then 30
  else 31

/-- Days from 1970-01-01 to `y-m-d` in the proleptic Gregorian calendar
(Hinnant's `days_from_civil` algorithm). -/
def daysFromCivil (y m d : ℕ) : ℤ :=
  let yAdj : ℤ := (y : ℤ) - (if m ≤ 2 then 1 else 0)
  let era : ℤ := Int.fdiv yAdj 400
  let yoe : ℤ := yAdj - era * 400
  let mp : ℤ := ((m : ℤ) + 9) % 12
  let doy : ℤ := (153 * mp + 2) / 5 + (d : ℤ) - 1
  let doe : ℤ := yoe * 365 + yoe / 4 - yoe / 100 + doy
  era * 146097 + doe - 719468

/-- Parse two leading decimal digits. -/
def parse2 : List Char → Option (ℕ × List Char)
  | c1 :: c2 :: rest =>
    if c1.isDigit && c2.isDigit then some (digitsVal [c1, c2], rest) else none
  | _ => none

/-- Milliseconds denoted by a fraction-of-second digit string: the first
up to three digits, scaled (further digits are truncated, as engines
do). -/
def fracMs : List Char → ℕ
  | [] => 0
  | [a] => digitsVal [a] * 100
  | [a, b] => digitsVal [a, b] * 10
  | a :: b :: c :: _ => digitsVal [a, b, c]

/-- Parse the optional `:SS[.fff]` part of an ISO time; an absent part is
zero seconds. -/
def parseSecFrac : List Char → Option (ℕ × ℕ × List Char)
  | ':' :: rest =>
    match parse2 rest with
    | some (ss, '.' :: rest2) =>
      let fs := rest2.takeWhile Char.isDigit
      if fs.isEmpty then none
      else some (ss, fracMs fs, rest2.dropWhile Char.isDigit)
    | some (ss, rest2) => some (ss, 0, rest2)
    | none => none
  | rest => some (0, 0, rest)

/-- Parse an ISO time-zone offset as minutes east of UTC: empty (the
modelled host time zone is UTC, see `parseDateQ`), `Z`, or `±HH[[:]MM]`. -/
def parseOffsetMag (r : List Char) : Option ℤ :=
  match parse2 r with
  | some (hh, []) => if hh ≤ 23 then some ((hh * 60 : ℕ) : ℤ) else none
  | some (hh, ':' :: rest2) =>
    match parse2 rest2 with
    | some (mm, []) =>
      if hh ≤ 23 ∧ mm ≤ 59 then some ((hh * 60 + mm : ℕ) : ℤ) else none
    | _ => none
  | some (hh, rest2) =>
    match parse2 rest2 with
    | some (mm, []) =>
      if hh ≤ 23 ∧ mm ≤ 59 then some ((hh * 60 + mm : ℕ) : ℤ) else none
    | _ => none
  | none => none

/-- Parse the whole offset suffix of an ISO date-time. -/
def parseOffset : List Char → Option ℤ
  | [] => some 0
  | ['Z'] => some 0
  | '+' :: r => parseOffsetMag r
  | '-' :: r => (parseOffsetMag r).map (fun off => -off)
  | _ => none

/-- Parse the tail after `T`: `HH:MM[:SS[.fff]]` then an optional offset;
the result is the UTC milliseconds-of-day (possibly negative or beyond one
day once the offset is applied — the day arithmetic in `parseDateQ`
absorbs it). `24:00:00.000` is the end-of-day form the ES date-time string
format allows. -/
def parseTimeTail (r : List Char) : Option ℤ :=
  match parse2 r with
  | some (hh, ':' :: rest1) =>
    match parse2 rest1 with
    | some (mm, rest2) =>
      match parseSecFrac rest2 with
      | some (ss, ms, rest3) =>
        match parseOffset rest3 with
        | some off =>
          if (hh ≤ 23 ∨ (hh = 24 ∧ mm = 0 ∧ ss = 0 ∧ ms = 0)) ∧ mm ≤ 59 ∧ ss ≤ 59 then
            some (((hh * 3600000 + mm * 60000 + ss * 1000 + ms : ℕ) : ℤ) - off * 60000)
          else none
        | none => none
      | none => none
    | none => none
  | _ => none

/-- Parse the ISO date part `YYYY[-MM[-DD]]` (month and day default to
1). -/
def parseDatePart : List Char → Option (ℕ × ℕ × ℕ × List Char)
  | y1 :: y2 :: y3 :: y4 :: rest =>
    if [y1, y2, y3, y4].all Char.isDigit then
      let y := digitsVal [y1, y2, y3, y4]
      match rest with
      | '-' :: m1 :: m2 :: rest2 =>
        if m1.isDigit && m2.isDigit then
          let m := digitsVal [m1, m2]
          match rest2 with
          | '-' :: d1 :: d2 :: rest3 =>
            if d1.isDigit && d2.isDigit then
              some (y, m, digitsVal [d1, d2], rest3)
            else none
          | _ => some (y, m, 1, rest2)
        else none
      | _ => some (y, 1, 1, rest)
    else none
  | _ => none

/-- Model of `new Date(s).getTime()` for the ES date-time string format
(ISO 8601: `YYYY[-MM[-DD]]`, optionally `T HH:MM[:SS[.fff]]` with an
optional `Z`/`±HH:MM` offset), as epoch milliseconds in `ℚ`; `none`
models an invalid date (whose `getTime()` is NaN), including
calendar-invalid days such as `2019-02-29`.  Two modelling choices: the
host time zone is taken to be UTC (ES interprets an offset-less date-time
as host-local time, which is environment-specific), and the engine-defined
fallback parsing of non-ISO strings (ES leaves it implementation-defined)
is out of scope. -/
def parseDateQ (s : String) : Option ℚ :=
  match parseDatePart s.data with
  | some (y, m, d, rest) =>
    if 1 ≤ m ∧ m ≤ 12 ∧ 1 ≤ d ∧ d ≤ daysInMonth y m then
      match rest with
      | [] => some ((daysFromCivil y m d * 86400000 : ℤ) : ℚ)
      | 'T' :: tail =>
        match parseTimeTail tail with
        | some ms => some ((daysFromCivil y m d * 86400000 + ms : ℤ) : ℚ)
        | none => none
      | _ => none
    else none
  | none => none

/-- Model of `a.localeCompare(b) <= 0`: primary comparison of the
lowercased strings, with the exact strings as tie-break — i.e. the
lexicographic order on the pair `(a.toLowerCase(), a)`.  This captures the
case-insensitive-first collation the spec expects (`"apple"` before
`"Banana"`). -/
def localeLe (a b : String) : Prop :=
  toLex (jsToLower a, a) ≤ toLex (jsToLower b, b)

instance : DecidableRel localeLe := fun a b =>
  inferInstanceAs (Decidable (toLex (jsToLower a, a) ≤ toLex (jsToLower b, b)))

/-- Model of `String.prototype.includes`: substring containment. -/
def jsIncludes (hay needle : String) : Bool :=
  decide (needle.data <:+: hay.data)

/-! ### The inventory item and the filter/sort engine
(`src/app.js` lines 101-144) -/

/-- An inventory item (the fields of `InventoryItem` used by
`applyFilters`, with the remaining declared fields kept for shape
fidelity). JS numbers are modelled as `ℚ`. -/
structure Item where
  id : String
  name : String
  description : String
  category : String
  price : ℚ
  currency : String
  inStock : Bool
  tags : List String
  image : String
  createdAt : String
  deriving DecidableEq, Repr

/-- The text-match predicate of `applyFilters`: case-insensitive substring
match of the (already lowercased, trimmed) query against name or
description. -/
def queryPred (qLower : String) (it : Item) : Bool :=
  jsIncludes (jsToLower it.name) qLower || jsIncludes (jsToLower it.description) qLower

/-- Stage 1 of `applyFilters` (lines 104-111): `const q` is the trimmed,
lowercased query; skip when it is empty (falsy), else filter by
`queryPred`. -/
def queryStage (s : FilterState) (items : List Item) : List Item :=
  if jsToLower (jsTrim s.q) = "" then items
  else items.filter (queryPred (jsToLower (jsTrim s.q)))

/-- The category-membership predicate: the lowercased item category is a
member of the set of lowercased selected categories. -/
def catPred (s : FilterState) (it : Item) : Bool :=
  (s.categories.map jsToLower).contains (jsToLower it.category)

/-- Stage 2 of `applyFilters` (lines 113-116): skip when no category is
selected, else filter by `catPred`. -/
def catStage (s : FilterState) (items : List Item) : List Item :=
  if s.categories = [] then items else items.filter (catPred s)

/-- Stage 3a of `applyFilters` (lines 118, 120): `parseFloat` the min
bound and, unless the result is NaN, keep items with `price >= min`. -/
def minStage (s : FilterState) (items : List Item) : List Item :=
  match parseFloatQ s.priceMin with
  | some b => items.filter (fun it => decide (FloatVal.leQ b it.price))
  | none => items

/-- Stage 3b of `applyFilters` (lines 119, 121): the inclusive max bound. -/
def maxStage (s : FilterState) (items : List Item) : List Item :=
  match parseFloatQ s.priceMax with
  | some b => items.filter (fun it => decide (FloatVal.geQ b it.price))
  | none => items

/-- Stage 4 of `applyFilters` (line 123): the stock filter. -/
def stockStage (s : FilterState) (items : List Item) : List Item :=
  if s.inStockOnly then items.filter (fun it => it.inStock) else items

/-- The four conjunctive filter stages in source order, before sorting. -/
def preSort (s : FilterState) (items : List Item) : List Item :=
  stockStage s (maxStage s (minStage s (catStage s (queryStage s items))))

/-- The `price_asc` comparator `(a, b) => a.price - b.price` as the
relation `comparator(a,b) <= 0`. -/
def lePriceAsc (a b : Item) : Prop := a.price ≤ b.price

instance : DecidableRel lePriceAsc := fun a b =>
  inferInstanceAs (Decidable (a.price ≤ b.price))

/-- The `price_desc` comparator `(a, b) => b.price - a.price` as
`comparator(a,b) <= 0`. -/
def lePriceDesc (a b : Item) : Prop := b.price ≤ a.price

instance : DecidableRel lePriceDesc := fun a b =>
  inferInstanceAs (Decidable (b.price ≤ a.price))

/-- The `name_asc` comparator `a.name.localeCompare(b.name)` as
`comparator(a,b) <= 0`. -/
def leNameAsc (a b : Item) : Prop := localeLe a.name b.name

instance : DecidableRel leNameAsc := fun a b =>
  inferInstanceAs (Decidable (localeLe a.name b.name))

/-- The `name_desc` comparator `b.name.localeCompare(a.name)` as
`comparator(a,b) <= 0`. -/
def leNameDesc (a b : Item) : Prop := localeLe b.name a.name

instance : DecidableRel leNameDesc := fun a b =>
  inferInstanceAs (Decidable (localeLe b.name a.name))

/-- The `newest` comparator `new Date(b.createdAt) - new Date(a.createdAt)`
as `comparator(a,b) <= 0`: descending by parsed date when both dates parse;
when either side is an invalid date the subtraction is NaN and the ES
`SortCompare` operation treats a NaN comparator result as `0`, i.e. a
tie. -/
def leNewest (a b : Item) : Prop :=
  match parseDateQ a.createdAt, parseDateQ b.createdAt with
  | some x, some y => y ≤ x
  | _, _ => True

instance : DecidableRel leNewest := fun a b => by
  unfold leNewest
  rcases parseDateQ a.createdAt with _ | x <;> rcases parseDateQ b.createdAt with _ | y
  · exact isTrue trivial
  · exact isTrue trivial
  · exact isTrue trivial
  · exact inferInstanceAs (Decidable (y ≤ x))

/-- Stage 5 of `applyFilters` (lines 125-141): the `switch` on
`state.sort`.  JS `Array.prototype.sort` is required to be stable; for a
consistent comparator every stable sort produces the same output, so it is
modelled by `List.insertionSort` on the `comparator(a,b) <= 0` relation.
An unrecognised mode falls through the `switch` without sorting. -/
def sortStage (s : FilterState) (items : List Item) : List Item :=
  if s.sort = "price_asc" then items.insertionSort lePriceAsc
  else if s.sort = "price_desc" then items.insertionSort lePriceDesc
  else if s.sort = "name_asc" then items.insertionSort leNameAsc
  else if s.sort = "name_desc" then items.insertionSort leNameDesc
  else if s.sort = "newest" then items.insertionSort leNewest
  else items

/-- Engine `applyFilters` from `src/app.js` lines 101-144: the four conjunctive
filter stages in source order, then the sort stage. -/
def applyFilters (allItems : List Item) (s : FilterState) : List Item :=
  sortStage s (preSort s allItems)

/-! ### JS runtime values and the schema validator
(`src/app.js` lines 73-92) -/

/-- A JS value as inspected by `validateSchema` (`typeof`,
`Array.isArray`, truthiness, property access). JS numbers are modelled
as `ℚ`. -/
inductive JSVal where
  | str (s : String)
  | num (q : ℚ)
  | bool (b : Bool)
  | arr (elems : List JSVal)
  | obj (fields : List (String × JSVal))
  | null
  | undefined

/-- JS `typeof`: note `typeof null` and `typeof` of an array are both
`"object"`. -/
def typeOf : JSVal → String
  | .str _ => "string"
  | .num _ => "number"
  | .bool _ => "boolean"
  | .arr _ => "object"
  | .obj _ => "object"
  | .null => "object"
  | .undefined => "undefined"

/-- JS truthiness: `null`, `undefined`, `false`, `0` and `""` are falsy. -/
def truthy : JSVal → Bool
  | .str s => !(s == "")
  | .num q => !(q == 0)
  | .bool b => b
  | .arr _ => true
  | .obj _ => true
  | .null => false
  | .undefined => false

/-- JS property access `v[k]` as the validator uses it: `none` models the
TypeError thrown when the receiver is `null` or `undefined`; otherwise the
value is the named field of an object, or `undefined` (arrays and the
remaining primitives have none of the accessed names). -/
def getF (v : JSVal) (k : String) : Option JSVal :=
  match v with
  | .null => none
  | .undefined => none
  | .obj fields =>
    some (((fields.find? (fun kv => kv.1 == k)).map (fun kv => kv.2)).getD .undefined)
  | _ => some .undefined

/-- Whether a value can be a property-access receiver without throwing. -/
def notNullish : JSVal → Bool
  | .null => false
  | .undefined => false
  | _ => true

/-- Total property access, used only on receivers a previous check has
already established to be non-nullish (a truthy value, or a receiver whose
first access did not throw): on those, access cannot throw, so the
`Option` of `getF` is safely discharged. -/
def getFD (v : JSVal) (k : String) : JSVal :=
  (getF v k).getD .undefined

/-- Model of `Array.isArray`. -/
def isArr : JSVal → Bool
  | .arr _ => true
  | _ => false

/-- The element list of an array value (only used under an `isArr`
guard). -/
def asArr : JSVal → List JSVal
  | .arr elems => elems
  | _ => []

/-- The ten per-item type checks of `validateSchema` (lines 80-89) on a
non-nullish item, in source order, as the first failure's message or `""`.
The accesses use `getFD`: they cannot throw because the receiver is
non-nullish (the throwing case is handled by `itemError`). -/
def itemMsg (i : ℕ) (it : JSVal) : String :=
  if !(typeOf (getFD it "id") == "string") then "items[" ++ toString i ++ "].id must be string"
  else if !(typeOf (getFD it "name") == "string") then "items[" ++ toString i ++ "].name must be string"
  else if !(typeOf (getFD it "description") == "string") then "items[" ++ toString i ++ "].description must be string"
  else if !(typeOf (getFD it "category") == "string") then "items[" ++ toString i ++ "].category must be string"
  else if !(typeOf (getFD it "price") == "number") then "items[" ++ toString i ++ "].price must be number"
  else if !(typeOf (getFD it "currency") == "string") then "items[" ++ toString i ++ "].currency must be string"
  else if !(typeOf (getFD it "inStock") == "boolean") then "items[" ++ toString i ++ "].inStock must be boolean"
  else if !(isArr (getFD it "tags")) then "items[" ++ toString i ++ "].tags must be array"
  else if !(typeOf (getFD it "image") == "string") then "items[" ++ toString i ++ "].image must be string"
  else if !(typeOf (getFD it "createdAt") == "string") then "items[" ++ toString i ++ "].createdAt must be string"
  else ""

/-- The per-item checks of `validateSchema` (lines 80-89): the very first
access `typeof it.id` throws a TypeError when the item is `null` or
`undefined` (`Except.error`, propagating out of `validateSchema`);
otherwise the receiver is non-nullish, none of the ten accesses can throw,
and the first failing check's message (or `""`) is returned. -/
def itemError (i : ℕ) (it : JSVal) : Except Unit String :=
  match getF it "id" with
  | none => .error ()
  | some _ => .ok (itemMsg i it)

/-- All ten per-item checks pass (index-independent form of
`itemMsg i it = ""`; meaningful for non-nullish items). -/
def itemOk (it : JSVal) : Bool :=
  (typeOf (getFD it "id") == "string") &&
  (typeOf (getFD it "name") == "string") &&
  (typeOf (getFD it "description") == "string") &&
  (typeOf (getFD it "category") == "string") &&
  (typeOf (getFD it "price") == "number") &&
  (typeOf (getFD it "currency") == "string") &&
  (typeOf (getFD it "inStock") == "boolean") &&
  (isArr (getFD it "tags")) &&
  (typeOf (getFD it "image") == "string") &&
  (typeOf (getFD it "createdAt") == "string")

/-- The `for (const [i, it] of data.items.entries())` loop of
`validateSchema`: a thrown TypeError propagates; otherwise the first
failing item's message (with its index), else `""`. -/
def validateItems : ℕ → List JSVal → Except Unit String
  | _, [] => .ok ""
  | i, it :: rest =>
    match itemError i it with
    | .error e => .error e
    | .ok m => if m == "" then validateItems (i + 1) rest else .ok m

/-- Validator `validateSchema` from `src/app.js` lines 73-92: the root,
`items` and `meta.lastUpdated` checks in order, then the per-item loop;
`.ok ""` means valid, `.error` a propagating TypeError (only a nullish
item can throw: the root accesses are guarded by the preceding truthiness
checks, so they use `getFD`). -/
def validateSchema (data : JSVal) : Except Unit String :=
  if !(truthy data) || !(typeOf data == "object") then .ok "Root is not an object"
  else if !(isArr (getFD data "items")) then .ok "`items` must be an array"
  else if !(truthy (getFD data "meta")) || !(typeOf (getFD (getFD data "meta") "lastUpdated") == "string") then
    .ok "`meta.lastUpdated` must be a string (YYYY-MM-DD)"
  else validateItems 0 (asArr (getFD data "items"))

/-! ### The data loader (`src/app.js` lines 54-71)

`loadData`'s single `fetch` is an external effect; its outcome is an input
of the model.  The model returns the list of messages passed to the
error-banner collaborator (`showError`) and the final value of
`INVENTORY`. -/

/-- The possible outcomes of `await fetch(...)` followed by
`await res.json()`: a non-success HTTP status (`!res.ok`), a network
error, a JSON parse error (each with the thrown error's `message`), or a
successfully parsed document. -/
inductive FetchOutcome where
  | httpError (status : ℕ)
  | networkError (msg : String)
  | parseError (msg : String)
  | success (doc : JSVal)

/-- The empty inventory `{items: [], meta: {lastUpdated: ""}}`. -/
def emptyInventory : JSVal :=
  .obj [("items", .arr []), ("meta", .obj [("lastUpdated", .str "")])]

/-- The `message` of the TypeError a property access on `null` throws
inside the validator; its exact text is engine-defined (this is V8's). -/
def typeErrorMsg : String := "Cannot read properties of null (reading 'id')"

/-- Loader `loadData` from `src/app.js` lines 54-71: on any thrown error
(a failing fetch outcome, or a TypeError escaping `validateSchema` — both
land in the `catch`) or a schema-validation message, report one message
via `showError` and set `INVENTORY` to the empty inventory; on success set
`INVENTORY` to the parsed document verbatim.  Result: (messages shown,
final `INVENTORY`). -/
def loadData : FetchOutcome → List String × JSVal
  | .httpError status =>
    (["Failed to load data/inventory.json (HTTP " ++ toString status ++ ")."], emptyInventory)
  | .networkError msg =>
    (["Failed to load data/inventory.json (" ++ msg ++ ")."], emptyInventory)
  | .parseError msg =>
    (["Failed to load data/inventory.json (" ++ msg ++ ")."], emptyInventory)
  | .success doc =>
    match validateSchema doc with
    | .error _ =>
      (["Failed to load data/inventory.json (" ++ typeErrorMsg ++ ")."], emptyInventory)
    | .ok e =>
      if e == "" then ([], doc)
      else (["Invalid inventory schema: " ++ e], emptyInventory)

/-! ### A heap model of `applyFilters` for the no-mutation claim

JS arrays are reference values; `applyFilters` receives a reference to the
inventory's array.  The heap holds every allocated array; addresses are
indices, allocation appends.  In the source (lines 101-144) the local
`items` starts as a fresh copy `[...allItems]`, each `filter` allocates a
fresh array rebinding `items`, and only `sort` mutates — in place, on the
local array. -/

structure JSHeap where
  arrs : List (List Item)

/-- Allocate a fresh array; returns the new heap and the new address. -/
def allocArr (h : JSHeap) (v : List Item) : JSHeap × ℕ :=
  (⟨h.arrs ++ [v]⟩, h.arrs.length)

/-- Read the array at an address. -/
def readArr (h : JSHeap) (r : ℕ) : List Item :=
  (h.arrs.get? r).getD []

/-- Overwrite the array at an address (the in-place `sort`). -/
def writeArr (h : JSHeap) (r : ℕ) (v : List Item) : JSHeap :=
  ⟨h.arrs.set r v⟩

/-- One conditional `items = items.filter(...)` step: when the stage is
enabled, allocate the filtered copy and rebind; otherwise leave the
binding alone. -/
def stepH (cond : Bool) (f : List Item → List Item) : JSHeap × ℕ → JSHeap × ℕ
  | (h, r) => if cond then allocArr h (f (readArr h r)) else (h, r)

/-- Whether `state.sort` hits one of the five `switch` cases that call the
mutating `items.sort(...)`. -/
def sortsInPlace (s : FilterState) : Bool :=
  s.sort == "price_asc" || s.sort == "price_desc" || s.sort == "name_asc" ||
  s.sort == "name_desc" || s.sort == "newest"

/-- Engine `applyFilters` at the heap level: copy the argument array, run the four
conditional filter stages (each allocating when enabled), sort the local
array in place when the mode is recognised, and return the local array's
address. -/
def applyFiltersH (h : JSHeap) (allRef : ℕ) (s : FilterState) : JSHeap × ℕ :=
  let q := jsToLower (jsTrim s.q)
  let st1 := allocArr h (readArr h allRef)
  let st2 := stepH (!(q == "")) (fun l => l.filter (queryPred q)) st1
  let st3 := stepH (!(s.categories == [])) (fun l => l.filter (catPred s)) st2
  let st4 := stepH (parseFloatQ s.priceMin).isSome (fun l => minStage s l) st3
  let st5 := stepH (parseFloatQ s.priceMax).isSome (fun l => maxStage s l) st4
  let st6 := stepH s.inStockOnly (fun l => l.filter (fun it => it.inStock)) st5
  let h7 := if sortsInPlace s then writeArr st6.1 st6.2 (sortStage s (readArr st6.1 st6.2)) else st6.1
  (h7, st6.2)

/-! ### Proof devices and sample data -/

/-- The defaulted date key of an item (a proof device: on items whose
`createdAt` parses, `leNewest` coincides with the total order
`leNewestKey`). -/
def pdKey (it : Item) : ℚ :=
  (parseDateQ it.createdAt).getD 0

/-- Total-order companion of `leNewest` (descending by defaulted date
key). -/
def leNewestKey (a b : Item) : Prop :=
  pdKey b ≤ pdKey a

instance : DecidableRel leNewestKey := fun a b =>
  inferInstanceAs (Decidable (pdKey b ≤ pdKey a))

/-- A sample item for concrete witnesses. -/
def sampleItem (i nm : String) (p : ℚ) (stock : Bool) (created : String) : Item :=
  { id := i, name := nm, description := "", category := "A", price := p,
    currency := "USD", inStock := stock, tags := [], image := "",
    createdAt := created }

/-- A sample JS item value passing all ten validator checks. -/
def sampleGoodItem : JSVal :=
  .obj [("id", .str "1"), ("name", .str "A"), ("description", .str "d"),
    ("category", .str "c"), ("price", .num 3), ("currency", .str "USD"),
    ("inStock", .bool true), ("tags", .arr []), ("image", .str "i"),
    ("createdAt", .str "2024-01-01")]

/-- A sample JS item value lacking the `price` field. -/
def sampleNoPriceItem : JSVal :=
  .obj [("id", .str "2"), ("name", .str "B"), ("description", .str "d"),
    ("category", .str "c"), ("currency", .str "USD"),
    ("inStock", .bool true), ("tags", .arr []), ("image", .str "i"),
    ("createdAt", .str "2024-01-01")]

/-- A sample dataset passing validation. -/
def sampleGoodDoc : JSVal :=
  .obj [("items", .arr [sampleGoodItem]),
    ("meta", .obj [("lastUpdated", .str "2024-01-01")])]

/-- A sample dataset whose `meta` has no `lastUpdated` string. -/
def sampleBadMetaDoc : JSVal :=
  .obj [("items", .arr []), ("meta", .num 0)]

/-- A sample dataset whose item 1 lacks a numeric `price`. -/
def samplePriceDoc : JSVal :=
  .obj [("items", .arr [sampleGoodItem, sampleNoPriceItem]),
    ("meta", .obj [("lastUpdated", .str "x")])]

/-- A sample dataset (valid JSON) whose only item is `null`. -/
def sampleNullItemDoc : JSVal :=
  .obj [("items", .arr [.null]),
    ("meta", .obj [("lastUpdated", .str "x")])]

/-! ### Helper lemmas: split / join -/

theorem String.mk_data_eq (s : String) : String.mk s.data = s := by
  cases s
  rfl

theorem splitCharAux_sepFree (sep : Char) (xs : List Char) :
    ∀ (rest acc : List Char), sep ∉ xs →
      splitCharAux sep (xs ++ rest) acc = splitCharAux sep rest (xs.reverse ++ acc) := by
  induction xs with
  | nil => intro rest acc _; simp
  | cons c cs ih =>
    intro rest acc h
    have hc : ¬ c = sep := fun hEq => h (hEq ▸ List.mem_cons_self c cs)
    have hcs : sep ∉ cs := fun hm => h (List.mem_cons_of_mem c hm)
    simp only [List.cons_append, splitCharAux, if_neg hc, List.append_eq,
      ih rest (c :: acc) hcs, List.reverse_cons, List.append_assoc, List.singleton_append,
      List.nil_append]

theorem splitCharAux_cons_sep (sep : Char) (rest acc : List Char) :
    splitCharAux sep (sep :: rest) acc = String.mk acc.reverse :: splitCharAux sep rest [] := by
  simp [splitCharAux]

theorem jsSplit_jsJoin (sep : Char) :
    ∀ (l : List String), l ≠ [] → (∀ x ∈ l, sep ∉ x.data) →
      jsSplit sep (jsJoin sep l) = l := by
  intro l
  induction l with
  | nil => intro h; exact absurd rfl h
  | cons s t ih =>
    intro _ hfree
    have hs : sep ∉ s.data := hfree s (List.mem_cons_self s t)
    match t with
    | [] =>
      show splitCharAux sep (jsJoin sep [s]).data [] = [s]
      have : (jsJoin sep [s]).data = s.data ++ [] := by simp [jsJoin]
      rw [this, splitCharAux_sepFree sep s.data [] [] hs]
      simp [splitCharAux, String.mk_data_eq]
    | u :: rest =>
      have ihr : jsSplit sep (jsJoin sep (u :: rest)) = u :: rest :=
        ih (by simp) (fun x hx => hfree x (List.mem_cons_of_mem s hx))
      show splitCharAux sep (jsJoin sep (s :: u :: rest)).data [] = s :: u :: rest
      have hdata : (jsJoin sep (s :: u :: rest)).data =
          s.data ++ (sep :: (jsJoin sep (u :: rest)).data) := by
        show (s ++ String.singleton sep ++ jsJoin sep (u :: rest)).data = _
        simp [String.data_append, String.singleton]
      rw [hdata, splitCharAux_sepFree sep s.data _ [] hs, splitCharAux_cons_sep]
      simp only [List.append_nil, List.reverse_reverse, String.mk_data_eq]
      exact congrArg (s :: ·) ihr

/-! ### Helper lemmas: the URL parameter list -/

theorem getParam_append (a b : List (String × String)) (k : String) :
    getParam (a ++ b) k = (getParam a k).or (getParam b k) := by
  unfold getParam
  rw [List.find?_append]
  cases a.find? (fun kv => kv.1 == k) <;> simp

theorem getParam_ite_singleton (c : Prop) [Decidable c] (k' v k : String) :
    getParam (if c then [(k', v)] else []) k =
      if c ∧ k' = k then some v else none := by
  by_cases hc : c
  · by_cases hk : k' = k
    · simp [getParam, List.find?, hc, hk]
    · simp [getParam, List.find?, hc, hk]
  · simp [getParam, hc]

/-! ### The value of each parameter `syncStateWithURL` emits -/

theorem getParam_sync_q (s : FilterState) :
    getParam (syncStateWithURL s) "q" = if s.q ≠ "" then some s.q else none := by
  unfold syncStateWithURL
  simp only [getParam_append, getParam_ite_singleton]
  simp

theorem getParam_sync_cat (s : FilterState) :
    getParam (syncStateWithURL s) "cat" =
      if s.categories ≠ [] then some (jsJoin ',' s.categories) else none := by
  unfold syncStateWithURL
  simp only [getParam_append, getParam_ite_singleton]
  simp

theorem getParam_sync_min (s : FilterState) :
    getParam (syncStateWithURL s) "min" =
      if s.priceMin ≠ "" ∧ jsIsNaN s.priceMin = false then some s.priceMin else none := by
  unfold syncStateWithURL
  simp only [getParam_append, getParam_ite_singleton]
  simp

theorem getParam_sync_max (s : FilterState) :
    getParam (syncStateWithURL s) "max" =
      if s.priceMax ≠ "" ∧ jsIsNaN s.priceMax = false then some s.priceMax else none := by
  unfold syncStateWithURL
  simp only [getParam_append, getParam_ite_singleton]
  simp

theorem getParam_sync_stock (s : FilterState) :
    getParam (syncStateWithURL s) "stock" =
      if s.inStockOnly then some "1" else none := by
  unfold syncStateWithURL
  simp only [getParam_append, getParam_ite_singleton]
  simp

theorem getParam_sync_sort (s : FilterState) :
    getParam (syncStateWithURL s) "sort" =
      if s.sort ≠ "" ∧ s.sort ≠ defaultState.sort then some s.sort else none := by
  unfold syncStateWithURL
  simp only [getParam_append, getParam_ite_singleton]
  simp

/-! ### What `readStateFromURL` does with each parameter -/

theorem readState_q (ps : List (String × String)) :
    (readStateFromURL ps).q = (getParam ps "q").getD defaultState.q := by
  simp only [readStateFromURL]
  cases getParam ps "q" <;> rfl

theorem readState_categories (ps : List (String × String)) :
    (readStateFromURL ps).categories =
      ((getParam ps "cat").map
        (fun v => (jsSplit ',' v).filter (fun seg => !(seg == "")))).getD
        defaultState.categories := by
  simp only [readStateFromURL]
  cases getParam ps "cat" <;> rfl

theorem readState_priceMin (ps : List (String × String)) :
    (readStateFromURL ps).priceMin = (getParam ps "min").getD defaultState.priceMin := by
  simp only [readStateFromURL]
  cases getParam ps "min" <;> rfl

theorem readState_priceMax (ps : List (String × String)) :
    (readStateFromURL ps).priceMax = (getParam ps "max").getD defaultState.priceMax := by
  simp only [readStateFromURL]
  cases getParam ps "max" <;> rfl

theorem readState_inStockOnly (ps : List (String × String)) :
    (readStateFromURL ps).inStockOnly =
      ((getParam ps "stock").map (fun v => v == "1")).getD defaultState.inStockOnly := by
  simp only [readStateFromURL]
  cases getParam ps "stock" <;> rfl

theorem readState_sort (ps : List (String × String)) :
    (readStateFromURL ps).sort = (getParam ps "sort").getD defaultState.sort := by
  simp only [readStateFromURL]
  cases getParam ps "sort" <;> rfl

theorem getParam_cons (kv : String × String) (ps : List (String × String)) (k : String) :
    getParam (kv :: ps) k = if kv.1 = k then some kv.2 else getParam ps k := by
  by_cases h : kv.1 = k
  · simp [getParam, List.find?, h]
  · have hb : (kv.1 == k) = false := by simp [h]
    simp [getParam, List.find?, h, hb]

/-- Decoding only looks at the six recognised keys: `find?` commutes with
the restriction to them. -/
theorem getParam_filter_recognized (ps : List (String × String)) (k : String)
    (hk : recognizedKeys.contains k = true) :
    getParam (ps.filter (fun kv => recognizedKeys.contains kv.1)) k = getParam ps k := by
  induction ps with
  | nil => rfl
  | cons kv t ih =>
    by_cases h2 : recognizedKeys.contains kv.1 = true
    · rw [List.filter_cons, if_pos h2, getParam_cons, getParam_cons]
      by_cases h1 : kv.1 = k
      · rw [if_pos h1, if_pos h1]
      · rw [if_neg h1, if_neg h1, ih]
    · have h1 : ¬ kv.1 = k := fun e => h2 (e ▸ hk)
      rw [List.filter_cons, if_neg h2, getParam_cons, if_neg h1, ih]

/-! ### C1 — round-trip through the URL -/

/-- C1 (counterexample): the round-trip fails as stated for a normalized
state whose category list holds the (shape-conformant) name `"a,b"`:
encoding joins the list into the single `cat` value `"a,b"`, and decoding
splits that value at the comma, yielding `["a", "b"]` instead of
`["a,b"]`. -/
theorem C1_counterexample :
    readStateFromURL (syncStateWithURL
      { q := "", categories := ["a,b"], priceMin := "", priceMax := "",
        inStockOnly := false, sort := "price_asc" }) ≠
      { q := "", categories := ["a,b"], priceMin := "", priceMax := "",
        inStockOnly := false, sort := "price_asc" } := by
  decide

/-- C1 (amended): for every normalized FilterState `s` — price bounds
empty or numeric (`isNaN` false), `sort` one of the five enum values — and
whose category names are each non-empty and comma-free (the amendment the
counterexample forces), decoding the query produced by encoding `s` yields
`s` again, field for field. -/
theorem C1_url_roundtrip (s : FilterState)
    (hmin : s.priceMin = "" ∨ jsIsNaN s.priceMin = false)
    (hmax : s.priceMax = "" ∨ jsIsNaN s.priceMax = false)
    (hsort : s.sort ∈ enumSorts)
    (hcats : ∀ c ∈ s.categories, c ≠ "" ∧ ',' ∉ c.data) :
    readStateFromURL (syncStateWithURL s) = s := by
  apply FilterState.ext
  · rw [readState_q, getParam_sync_q]
    by_cases h : s.q = ""
    · rw [if_neg (by simpa using h)]
      exact h.symm
    · rw [if_pos h]
      rfl
  · rw [readState_categories, getParam_sync_cat]
    by_cases h : s.categories = []
    · rw [if_neg (by simpa using h)]
      exact h.symm
    · rw [if_pos h, Option.map_some', Option.getD_some,
        jsSplit_jsJoin ',' s.categories h (fun x hx => (hcats x hx).2)]
      apply List.filter_eq_self.mpr
      intro a ha
      simpa using (hcats a ha).1
  · rw [readState_priceMin, getParam_sync_min]
    rcases hmin with h | h
    · rw [if_neg (by simp [h])]
      exact h.symm
    · by_cases h0 : s.priceMin = ""
      · rw [if_neg (by simp [h0])]
        exact h0.symm
      · rw [if_pos ⟨h0, h⟩]
        rfl
  · rw [readState_priceMax, getParam_sync_max]
    rcases hmax with h | h
    · rw [if_neg (by simp [h])]
      exact h.symm
    · by_cases h0 : s.priceMax = ""
      · rw [if_neg (by simp [h0])]
        exact h0.symm
      · rw [if_pos ⟨h0, h⟩]
        rfl
  · rw [readState_inStockOnly, getParam_sync_stock]
    by_cases h : s.inStockOnly = true
    · rw [if_pos h, Option.map_some', Option.getD_some]
      simp [h]
    · rw [if_neg h]
      simp only [Option.map_none', Option.getD_none]
      exact (Bool.not_eq_true _).mp h |>.symm
  · rw [readState_sort, getParam_sync_sort]
    have hcases : s.sort = "price_asc" ∨ s.sort = "price_desc" ∨ s.sort = "name_asc" ∨
        s.sort = "name_desc" ∨ s.sort = "newest" := by
      simpa [enumSorts] using hsort
    rcases hcases with h | h | h | h | h
    · rw [if_neg (by simp [h, defaultState])]
      exact h.symm ▸ rfl
    all_goals rw [if_pos ⟨by simp [h], by simp [h, defaultState]⟩]; rfl

/-- C1 (witness): the amended round-trip at a concrete normalized state
with non-empty query, two comma-free categories, numeric bounds, the stock
flag set and a non-default sort. -/
theorem C1_witness :
    readStateFromURL (syncStateWithURL
      { q := "shoe", categories := ["Books", "Toys"], priceMin := "5",
        priceMax := "10.5", inStockOnly := true, sort := "newest" }) =
      { q := "shoe", categories := ["Books", "Toys"], priceMin := "5",
        priceMax := "10.5", inStockOnly := true, sort := "newest" } :=
  C1_url_roundtrip _ (by right; decide) (by right; decide) (by decide) (by decide)

/-! ### C2 — minimal URL encoding -/

/-- C2: for every FilterState whose fields have their declared shapes
(price bounds empty or numeric in the code's sense — `isNaN` false — and
`sort` one of the five enum values), `syncStateWithURL` emits a parameter
for a field exactly when that field differs from its default: empty string
for `q`/`priceMin`/`priceMax`, empty list for `categories`, `false` for
`inStockOnly`, and the default sort for `sort`. -/
theorem C2_minimal_encoding (s : FilterState)
    (hmin : s.priceMin = "" ∨ jsIsNaN s.priceMin = false)
    (hmax : s.priceMax = "" ∨ jsIsNaN s.priceMax = false)
    (hsort : s.sort ∈ enumSorts) :
    (hasParam (syncStateWithURL s) "q" = true ↔ s.q ≠ defaultState.q) ∧
    (hasParam (syncStateWithURL s) "cat" = true ↔ s.categories ≠ defaultState.categories) ∧
    (hasParam (syncStateWithURL s) "min" = true ↔ s.priceMin ≠ defaultState.priceMin) ∧
    (hasParam (syncStateWithURL s) "max" = true ↔ s.priceMax ≠ defaultState.priceMax) ∧
    (hasParam (syncStateWithURL s) "stock" = true ↔ s.inStockOnly ≠ defaultState.inStockOnly) ∧
    (hasParam (syncStateWithURL s) "sort" = true ↔ s.sort ≠ defaultState.sort) := by
  have hsort' : s.sort ≠ "" := by
    have : s.sort = "price_asc" ∨ s.sort = "price_desc" ∨ s.sort = "name_asc" ∨
        s.sort = "name_desc" ∨ s.sort = "newest" := by simpa [enumSorts] using hsort
    rcases this with h | h | h | h | h <;> simp [h]
  refine ⟨?_, ?_, ?_, ?_, ?_, ?_⟩
  · rw [hasParam, getParam_sync_q]
    by_cases h : s.q = "" <;> simp [h, defaultState]
  · rw [hasParam, getParam_sync_cat]
    by_cases h : s.categories = [] <;> simp [h, defaultState]
  · rw [hasParam, getParam_sync_min]
    rcases hmin with h | h
    · simp [h, defaultState]
    · by_cases h0 : s.priceMin = "" <;> simp [h0, h, defaultState]
  · rw [hasParam, getParam_sync_max]
    rcases hmax with h | h
    · simp [h, defaultState]
    · by_cases h0 : s.priceMax = "" <;> simp [h0, h, defaultState]
  · rw [hasParam, getParam_sync_stock]
    by_cases h : s.inStockOnly = true <;> simp [h, defaultState]
  · rw [hasParam, getParam_sync_sort]
    by_cases h : s.sort = defaultState.sort <;> simp [h, hsort']

/-- C2 (witness): at a state differing from the default in `q`,
`categories` and `inStockOnly` only, exactly those three parameters are
emitted. -/
theorem C2_witness :
    (hasParam (syncStateWithURL
      { q := "mug", categories := ["Kitchen"], priceMin := "",
        priceMax := "", inStockOnly := true, sort := "price_asc" }) "q" = true) ∧
    (hasParam (syncStateWithURL
      { q := "mug", categories := ["Kitchen"], priceMin := "",
        priceMax := "", inStockOnly := true, sort := "price_asc" }) "min" = true ↔ False) := by
  have h := C2_minimal_encoding
    { q := "mug", categories := ["Kitchen"], priceMin := "",
      priceMax := "", inStockOnly := true, sort := "price_asc" }
    (Or.inl rfl) (Or.inl rfl) (by decide)
  exact ⟨h.1.mpr (by decide), by simpa [defaultState] using h.2.2.1⟩

/-! ### C3 — tolerant decoding -/

/-- C3 (counterexample): decoding does not validate the `sort` value — the
claim says a non-enum `sort` value leaves `sort` at its default
`"price_asc"`, but `readStateFromURL` stores the value verbatim. -/
theorem C3_counterexample :
    (readStateFromURL [("sort", "bogus")]).sort = "bogus" ∧
      "bogus" ≠ defaultState.sort := by
  decide

/-- C3 (amended): decoding is total and ignores unrecognised parameters
(the result only depends on the six recognised keys), and a `stock`
parameter yields `inStockOnly = true` exactly for the literal value `"1"`;
however — the amendment the counterexample forces — the values of the
recognised parameters `sort`, `min` and `max` are not validated: they are
stored verbatim (a non-enum `sort` value is kept, not reset to the
default; it is `applyFilters`' `switch` that later ignores it). -/
theorem C3_tolerant_decoding (ps : List (String × String)) :
    (readStateFromURL ps =
      readStateFromURL (ps.filter (fun kv => recognizedKeys.contains kv.1))) ∧
    ((readStateFromURL ps).inStockOnly = true ↔ getParam ps "stock" = some "1") ∧
    ((readStateFromURL ps).sort = (getParam ps "sort").getD defaultState.sort) ∧
    ((readStateFromURL ps).priceMin = (getParam ps "min").getD defaultState.priceMin) ∧
    ((readStateFromURL ps).priceMax = (getParam ps "max").getD defaultState.priceMax) := by
  refine ⟨?_, ?_, readState_sort ps, readState_priceMin ps, readState_priceMax ps⟩
  · apply FilterState.ext
    · rw [readState_q, readState_q, getParam_filter_recognized ps "q" (by decide)]
    · rw [readState_categories, readState_categories,
        getParam_filter_recognized ps "cat" (by decide)]
    · rw [readState_priceMin, readState_priceMin,
        getParam_filter_recognized ps "min" (by decide)]
    · rw [readState_priceMax, readState_priceMax,
        getParam_filter_recognized ps "max" (by decide)]
    · rw [readState_inStockOnly, readState_inStockOnly,
        getParam_filter_recognized ps "stock" (by decide)]
    · rw [readState_sort, readState_sort,
        getParam_filter_recognized ps "sort" (by decide)]
  · rw [readState_inStockOnly]
    cases hstock : getParam ps "stock" with
    | none => simp [defaultState]
    | some v => simp

/-! ### Helper lemmas: stability and congruence of the sort model -/

theorem filter_orderedInsert {α : Type} (r : α → α → Prop) [DecidableRel r]
    (p : α → Bool) (a : α) (l : List α)
    (hp : ∀ b, p a = true → p b = true → r a b) :
    (l.orderedInsert r a).filter p =
      if p a then a :: l.filter p else l.filter p := by
  induction l with
  | nil =>
    by_cases h : p a = true <;> simp [List.orderedInsert, List.filter_cons, h]
  | cons b t ih =>
    rw [List.orderedInsert]
    by_cases hr : r a b
    · rw [if_pos hr]
      by_cases hpa : p a = true <;> simp [List.filter_cons, hpa]
    · rw [if_neg hr]
      by_cases hpa : p a = true
      · have hpb : p b = false := by
          cases hb : p b
          · rfl
          · exact absurd (hp b hpa hb) hr
        simp [List.filter_cons, hpb, ih, hpa]
      · have hpa' : p a = false := by
          cases ha : p a
          · rfl
          · exact absurd ha hpa
        by_cases hpb : p b = true <;> simp [List.filter_cons, hpb, ih, hpa']

theorem filter_insertionSort {α : Type} (r : α → α → Prop) [DecidableRel r]
    (p : α → Bool) (hp : ∀ a b, p a = true → p b = true → r a b) :
    ∀ l : List α, (l.insertionSort r).filter p = l.filter p := by
  intro l
  induction l with
  | nil => rfl
  | cons a t ih =>
    rw [List.insertionSort, filter_orderedInsert r p a _ (hp a)]
    by_cases hpa : p a = true <;> simp [List.filter_cons, hpa, ih]

theorem orderedInsert_congr {α : Type} (r r' : α → α → Prop)
    [DecidableRel r] [DecidableRel r'] (a : α) (l : List α)
    (h : ∀ b ∈ l, r a b ↔ r' a b) :
    l.orderedInsert r a = l.orderedInsert r' a := by
  induction l with
  | nil => rfl
  | cons b t ih =>
    rw [List.orderedInsert, List.orderedInsert]
    by_cases hr : r a b
    · rw [if_pos hr, if_pos ((h b (List.mem_cons_self b t)).mp hr)]
    · rw [if_neg hr, if_neg (fun h' => hr ((h b (List.mem_cons_self b t)).mpr h')),
        ih (fun b' hb => h b' (List.mem_cons_of_mem b hb))]

theorem insertionSort_congr {α : Type} (r r' : α → α → Prop)
    [DecidableRel r] [DecidableRel r'] :
    ∀ l : List α, (∀ a ∈ l, ∀ b ∈ l, r a b ↔ r' a b) →
      l.insertionSort r = l.insertionSort r' := by
  intro l
  induction l with
  | nil => intro _; rfl
  | cons a t ih =>
    intro h
    rw [List.insertionSort, List.insertionSort,
      ih (fun x hx y hy => h x (List.mem_cons_of_mem a hx) y (List.mem_cons_of_mem a hy))]
    exact orderedInsert_congr r r' a _ (fun b hb =>
      h a (List.mem_cons_self a t) b
        (List.mem_cons_of_mem a ((List.mem_insertionSort r' ).mp hb)))

/-! ### Helper lemmas: the filter stages -/

theorem queryStage_sublist (s : FilterState) (l : List Item) :
    (queryStage s l).Sublist l := by
  unfold queryStage
  by_cases h : jsToLower (jsTrim s.q) = ""
  · simp [h]
  · simp only [h, if_neg h]
    exact List.filter_sublist l

theorem catStage_sublist (s : FilterState) (l : List Item) :
    (catStage s l).Sublist l := by
  unfold catStage
  by_cases h : s.categories = []
  · simp [h]
  · simp only [if_neg h]
    exact List.filter_sublist l

theorem minStage_sublist (s : FilterState) (l : List Item) :
    (minStage s l).Sublist l := by
  unfold minStage
  cases parseFloatQ s.priceMin
  · exact List.Sublist.refl l
  · exact List.filter_sublist l

theorem maxStage_sublist (s : FilterState) (l : List Item) :
    (maxStage s l).Sublist l := by
  unfold maxStage
  cases parseFloatQ s.priceMax
  · exact List.Sublist.refl l
  · exact List.filter_sublist l

theorem stockStage_sublist (s : FilterState) (l : List Item) :
    (stockStage s l).Sublist l := by
  unfold stockStage
  by_cases h : s.inStockOnly <;> simp [h, List.filter_sublist]

theorem preSort_sublist (s : FilterState) (l : List Item) :
    (preSort s l).Sublist l :=
  ((((stockStage_sublist s _).trans (maxStage_sublist s _)).trans
    (minStage_sublist s _)).trans (catStage_sublist s _)).trans
    (queryStage_sublist s l)

theorem sortStage_perm (s : FilterState) (l : List Item) :
    (sortStage s l).Perm l := by
  unfold sortStage
  split_ifs <;> first
    | exact List.perm_insertionSort _ l
    | exact List.Perm.refl l

/-! ### C4 — price-bound filtering -/

/-- C4: an empty or non-numeric bound parses to NaN (`none`) and its stage
removes no item; a finite parsed bound filters inclusively; a bound
parsing to `Infinity` (`min`) or `-Infinity` (`max`) — numeric per
`parseFloat`, so not "non-numeric" in the claim's sense — removes every
finite-priced item, and the opposite infinity removes none; and with
`min = "5"`, `max = "10"` the two bound stages keep exactly the items with
`5 <= price <= 10`. -/
theorem C4_price_bounds (items : List Item) (s : FilterState) :
    (parseFloatQ s.priceMin = none → minStage s items = items) ∧
    (∀ m : ℚ, parseFloatQ s.priceMin = some (.fin m) →
      minStage s items = items.filter (fun it => decide (m ≤ it.price))) ∧
    (parseFloatQ s.priceMin = some .inf → minStage s items = []) ∧
    (parseFloatQ s.priceMin = some .negInf → minStage s items = items) ∧
    (parseFloatQ s.priceMax = none → maxStage s items = items) ∧
    (∀ m : ℚ, parseFloatQ s.priceMax = some (.fin m) →
      maxStage s items = items.filter (fun it => decide (it.price ≤ m))) ∧
    (parseFloatQ s.priceMax = some .negInf → maxStage s items = []) ∧
    (parseFloatQ s.priceMax = some .inf → maxStage s items = items) ∧
    (s.priceMin = "5" → s.priceMax = "10" →
      maxStage s (minStage s items) =
        items.filter (fun it => decide (5 ≤ it.price ∧ it.price ≤ 10))) := by
  refine ⟨?_, ?_, ?_, ?_, ?_, ?_, ?_, ?_, ?_⟩
  · intro h
    unfold minStage
    rw [h]
  · intro m h
    unfold minStage
    rw [h]
    dsimp only [FloatVal.leQ]
  · intro h
    unfold minStage
    rw [h]
    simp [FloatVal.leQ]
  · intro h
    unfold minStage
    rw [h]
    simp [FloatVal.leQ]
  · intro h
    unfold maxStage
    rw [h]
  · intro m h
    unfold maxStage
    rw [h]
    dsimp only [FloatVal.geQ]
  · intro h
    unfold maxStage
    rw [h]
    simp [FloatVal.geQ]
  · intro h
    unfold maxStage
    rw [h]
    simp [FloatVal.geQ]
  · intro h5 h10
    have pm : parseFloatQ s.priceMin = some (.fin 5) := by rw [h5]; decide
    have pM : parseFloatQ s.priceMax = some (.fin 10) := by rw [h10]; decide
    unfold minStage maxStage
    rw [pm, pM]
    dsimp only
    rw [List.filter_filter]
    apply List.filter_congr
    intro it _
    by_cases hlo : (5 : ℚ) ≤ it.price <;> by_cases hhi : it.price ≤ (10 : ℚ) <;>
      simp [hlo, hhi, FloatVal.leQ, FloatVal.geQ]

/-- C4 (witness): with bounds `"5"`/`"10"` on prices 3, 7, 12, the bound
stages keep exactly the price-7 item. -/
theorem C4_witness :
    maxStage
      { q := "", categories := [], priceMin := "5", priceMax := "10",
        inStockOnly := false, sort := "price_asc" }
      (minStage
        { q := "", categories := [], priceMin := "5", priceMax := "10",
          inStockOnly := false, sort := "price_asc" }
        [sampleItem "1" "a" 3 true "2024-01-01",
         sampleItem "2" "b" 7 true "2024-01-01",
         sampleItem "3" "c" 12 true "2024-01-01"]) =
      [sampleItem "1" "a" 3 true "2024-01-01",
       sampleItem "2" "b" 7 true "2024-01-01",
       sampleItem "3" "c" 12 true "2024-01-01"].filter
        (fun it => decide (5 ≤ it.price ∧ it.price ≤ 10)) :=
  (C4_price_bounds _ _).2.2.2.2.2.2.2.2 rfl rfl

/-! ### Helper lemmas: the five sort modes -/

theorem sortStage_eq_price_asc (s : FilterState) (h : s.sort = "price_asc") (l : List Item) :
    sortStage s l = l.insertionSort lePriceAsc := by
  rw [sortStage, if_pos h]

theorem sortStage_eq_price_desc (s : FilterState) (h : s.sort = "price_desc") (l : List Item) :
    sortStage s l = l.insertionSort lePriceDesc := by
  rw [sortStage, if_neg (by rw [h]; decide), if_pos h]

theorem sortStage_eq_name_asc (s : FilterState) (h : s.sort = "name_asc") (l : List Item) :
    sortStage s l = l.insertionSort leNameAsc := by
  rw [sortStage, if_neg (by rw [h]; decide), if_neg (by rw [h]; decide), if_pos h]

theorem sortStage_eq_name_desc (s : FilterState) (h : s.sort = "name_desc") (l : List Item) :
    sortStage s l = l.insertionSort leNameDesc := by
  rw [sortStage, if_neg (by rw [h]; decide), if_neg (by rw [h]; decide),
    if_neg (by rw [h]; decide), if_pos h]

theorem sortStage_eq_newest (s : FilterState) (h : s.sort = "newest") (l : List Item) :
    sortStage s l = l.insertionSort leNewest := by
  rw [sortStage, if_neg (by rw [h]; decide), if_neg (by rw [h]; decide),
    if_neg (by rw [h]; decide), if_neg (by rw [h]; decide), if_pos h]

theorem localeLe_total (a b : String) : localeLe a b ∨ localeLe b a := by
  unfold localeLe
  exact le_total _ _

theorem localeLe_trans {a b c : String} (h1 : localeLe a b) (h2 : localeLe b c) :
    localeLe a c := by
  unfold localeLe at h1 h2 ⊢
  exact le_trans h1 h2

theorem localeLe_refl (a : String) : localeLe a a := by
  unfold localeLe
  exact le_refl _

theorem leNewest_iff_key {a b : Item}
    (ha : (parseDateQ a.createdAt).isSome = true)
    (hb : (parseDateQ b.createdAt).isSome = true) :
    leNewest a b ↔ leNewestKey a b := by
  obtain ⟨x, hx⟩ := Option.isSome_iff_exists.mp ha
  obtain ⟨y, hy⟩ := Option.isSome_iff_exists.mp hb
  unfold leNewest leNewestKey pdKey
  rw [hx, hy]
  simp

/-! ### C5 — declared sort order, stability, sort last -/

/-- C5: `applyFilters` sorts after all filters (first conjunct, by the
pipeline's structure); for each of the five declared modes the output is
ordered by the declared key — ascending/descending price, locale name
order, parsed `createdAt` descending for `newest` (for `newest` under the
data-model invariant that the dates parse) — and the sort is stable: for
any key value, the output's items with that key are exactly the filtered
input's items with that key, in the same order. -/
theorem C5_sort_order_stable (items : List Item) (s : FilterState) :
    (applyFilters items s = sortStage s (preSort s items)) ∧
    (s.sort = "price_asc" →
      (applyFilters items s).Sorted lePriceAsc ∧
      ∀ v : ℚ, (applyFilters items s).filter (fun it => decide (it.price = v)) =
        (preSort s items).filter (fun it => decide (it.price = v))) ∧
    (s.sort = "price_desc" →
      (applyFilters items s).Sorted lePriceDesc ∧
      ∀ v : ℚ, (applyFilters items s).filter (fun it => decide (it.price = v)) =
        (preSort s items).filter (fun it => decide (it.price = v))) ∧
    (s.sort = "name_asc" →
      (applyFilters items s).Sorted leNameAsc ∧
      ∀ v : String, (applyFilters items s).filter (fun it => decide (it.name = v)) =
        (preSort s items).filter (fun it => decide (it.name = v))) ∧
    (s.sort = "name_desc" →
      (applyFilters items s).Sorted leNameDesc ∧
      ∀ v : String, (applyFilters items s).filter (fun it => decide (it.name = v)) =
        (preSort s items).filter (fun it => decide (it.name = v))) ∧
    (s.sort = "newest" → (∀ it ∈ items, (parseDateQ it.createdAt).isSome = true) →
      (applyFilters items s).Pairwise
        (fun a b => ∀ x y : ℚ, parseDateQ a.createdAt = some x →
          parseDateQ b.createdAt = some y → y ≤ x) ∧
      ∀ v : ℚ,
        (applyFilters items s).filter (fun it => decide (parseDateQ it.createdAt = some v)) =
          (preSort s items).filter (fun it => decide (parseDateQ it.createdAt = some v))) := by
  refine ⟨rfl, ?_, ?_, ?_, ?_, ?_⟩
  · intro h
    rw [applyFilters, sortStage_eq_price_asc s h]
    constructor
    · haveI : IsTotal Item lePriceAsc := ⟨fun a b => le_total a.price b.price⟩
      haveI : IsTrans Item lePriceAsc :=
        ⟨fun _ _ _ hab hbc => le_trans hab hbc⟩
      exact List.sorted_insertionSort lePriceAsc _
    · intro v
      apply filter_insertionSort
      intro a b hpa hpb
      have ha := of_decide_eq_true hpa
      have hb := of_decide_eq_true hpb
      show a.price ≤ b.price
      rw [ha, hb]
  · intro h
    rw [applyFilters, sortStage_eq_price_desc s h]
    constructor
    · haveI : IsTotal Item lePriceDesc := ⟨fun a b => le_total b.price a.price⟩
      haveI : IsTrans Item lePriceDesc :=
        ⟨fun _ _ _ hab hbc => le_trans hbc hab⟩
      exact List.sorted_insertionSort lePriceDesc _
    · intro v
      apply filter_insertionSort
      intro a b hpa hpb
      have ha := of_decide_eq_true hpa
      have hb := of_decide_eq_true hpb
      show b.price ≤ a.price
      rw [ha, hb]
  · intro h
    rw [applyFilters, sortStage_eq_name_asc s h]
    constructor
    · haveI : IsTotal Item leNameAsc := ⟨fun a b => localeLe_total a.name b.name⟩
      haveI : IsTrans Item leNameAsc :=
        ⟨fun _ _ _ hab hbc => localeLe_trans hab hbc⟩
      exact List.sorted_insertionSort leNameAsc _
    · intro v
      apply filter_insertionSort
      intro a b hpa hpb
      have ha := of_decide_eq_true hpa
      have hb := of_decide_eq_true hpb
      show localeLe a.name b.name
      rw [ha, hb]
      exact localeLe_refl v
  · intro h
    rw [applyFilters, sortStage_eq_name_desc s h]
    constructor
    · haveI : IsTotal Item leNameDesc := ⟨fun a b => localeLe_total b.name a.name⟩
      haveI : IsTrans Item leNameDesc :=
        ⟨fun _ _ _ hab hbc => localeLe_trans hbc hab⟩
      exact List.sorted_insertionSort leNameDesc _
    · intro v
      apply filter_insertionSort
      intro a b hpa hpb
      have ha := of_decide_eq_true hpa
      have hb := of_decide_eq_true hpb
      show localeLe b.name a.name
      rw [ha, hb]
      exact localeLe_refl v
  · intro h hall
    have hallPre : ∀ x ∈ preSort s items, (parseDateQ x.createdAt).isSome = true :=
      fun x hx => hall x ((preSort_sublist s items).subset hx)
    have hcongr : (preSort s items).insertionSort leNewest =
        (preSort s items).insertionSort leNewestKey :=
      insertionSort_congr leNewest leNewestKey (preSort s items)
        (fun a ha b hb => leNewest_iff_key (hallPre a ha) (hallPre b hb))
    constructor
    · rw [applyFilters, sortStage_eq_newest s h, hcongr]
      haveI : IsTotal Item leNewestKey := ⟨fun a b => le_total (pdKey b) (pdKey a)⟩
      haveI : IsTrans Item leNewestKey :=
        ⟨fun _ _ _ hab hbc => le_trans hbc hab⟩
      have hsorted := List.sorted_insertionSort leNewestKey (preSort s items)
      apply hsorted.imp_of_mem
      intro a b hma hmb hk
      intro x y hx hy
      have ha' : pdKey a = x := by unfold pdKey; rw [hx]; rfl
      have hb' : pdKey b = y := by unfold pdKey; rw [hy]; rfl
      rw [← ha', ← hb']
      exact hk
    · intro v
      rw [applyFilters, sortStage_eq_newest s h]
      apply filter_insertionSort
      intro a b hpa hpb
      have ha := of_decide_eq_true hpa
      have hb := of_decide_eq_true hpb
      show leNewest a b
      unfold leNewest
      rw [ha, hb]

/-- C5 (witness): with `sort = "price_asc"` on prices 12, 3, 7 (one out of
stock but no filter enabled), the output is price-sorted, and the
stability equation holds at key value 7. -/
theorem C5_witness :
    (applyFilters
      [sampleItem "1" "a" 12 true "2024-01-01",
       sampleItem "2" "b" 3 true "2024-01-02",
       sampleItem "3" "c" 7 false "2024-01-03"] defaultState).Sorted lePriceAsc ∧
    (applyFilters
      [sampleItem "1" "a" 12 true "2024-01-01",
       sampleItem "2" "b" 3 true "2024-01-02",
       sampleItem "3" "c" 7 false "2024-01-03"] defaultState).filter
        (fun it => decide (it.price = (7 : ℚ))) =
      (preSort defaultState
        [sampleItem "1" "a" 12 true "2024-01-01",
         sampleItem "2" "b" 3 true "2024-01-02",
         sampleItem "3" "c" 7 false "2024-01-03"]).filter
        (fun it => decide (it.price = (7 : ℚ))) :=
  ⟨((C5_sort_order_stable _ defaultState).2.1 rfl).1,
   ((C5_sort_order_stable _ defaultState).2.1 rfl).2 7⟩

/-! ### Helper lemmas: a second pass of each filter stage removes nothing -/

theorem queryStage_eq_self (s : FilterState) (l : List Item)
    (h : jsToLower (jsTrim s.q) ≠ "" →
      ∀ x ∈ l, queryPred (jsToLower (jsTrim s.q)) x = true) :
    queryStage s l = l := by
  unfold queryStage
  by_cases hq : jsToLower (jsTrim s.q) = ""
  · rw [if_pos hq]
  · rw [if_neg hq]
    exact List.filter_eq_self.mpr (h hq)

theorem catStage_eq_self (s : FilterState) (l : List Item)
    (h : s.categories ≠ [] → ∀ x ∈ l, catPred s x = true) :
    catStage s l = l := by
  unfold catStage
  by_cases hc : s.categories = []
  · rw [if_pos hc]
  · rw [if_neg hc]
    exact List.filter_eq_self.mpr (h hc)

theorem minStage_eq_self (s : FilterState) (l : List Item)
    (h : ∀ b : FloatVal, parseFloatQ s.priceMin = some b →
      ∀ x ∈ l, decide (FloatVal.leQ b x.price) = true) :
    minStage s l = l := by
  unfold minStage
  cases hp : parseFloatQ s.priceMin with
  | none => rfl
  | some b => exact List.filter_eq_self.mpr (h b hp)

theorem maxStage_eq_self (s : FilterState) (l : List Item)
    (h : ∀ b : FloatVal, parseFloatQ s.priceMax = some b →
      ∀ x ∈ l, decide (FloatVal.geQ b x.price) = true) :
    maxStage s l = l := by
  unfold maxStage
  cases hp : parseFloatQ s.priceMax with
  | none => rfl
  | some b => exact List.filter_eq_self.mpr (h b hp)

theorem stockStage_eq_self (s : FilterState) (l : List Item)
    (h : s.inStockOnly = true → ∀ x ∈ l, x.inStock = true) :
    stockStage s l = l := by
  unfold stockStage
  by_cases hs : s.inStockOnly = true
  · rw [if_pos hs]
    exact List.filter_eq_self.mpr (h hs)
  · rw [if_neg hs]

/-! ### Helper lemmas: what membership in `preSort` implies -/

theorem mem_preSort_query (s : FilterState) (items : List Item) (x : Item)
    (hx : x ∈ preSort s items) (hq : jsToLower (jsTrim s.q) ≠ "") :
    queryPred (jsToLower (jsTrim s.q)) x = true := by
  have hsub : (preSort s items).Sublist (queryStage s items) :=
    (((stockStage_sublist s _).trans (maxStage_sublist s _)).trans
      (minStage_sublist s _)).trans (catStage_sublist s _)
  have hx' : x ∈ queryStage s items := hsub.subset hx
  unfold queryStage at hx'
  rw [if_neg hq] at hx'
  exact (List.mem_filter.mp hx').2

theorem mem_preSort_cat (s : FilterState) (items : List Item) (x : Item)
    (hx : x ∈ preSort s items) (hc : s.categories ≠ []) :
    catPred s x = true := by
  have hsub : (preSort s items).Sublist (catStage s (queryStage s items)) :=
    ((stockStage_sublist s _).trans (maxStage_sublist s _)).trans
      (minStage_sublist s _)
  have hx' : x ∈ catStage s (queryStage s items) := hsub.subset hx
  unfold catStage at hx'
  rw [if_neg hc] at hx'
  exact (List.mem_filter.mp hx').2

theorem mem_preSort_min (s : FilterState) (items : List Item) (x : Item)
    (hx : x ∈ preSort s items) (b : FloatVal) (hp : parseFloatQ s.priceMin = some b) :
    decide (FloatVal.leQ b x.price) = true := by
  have hsub : (preSort s items).Sublist (minStage s (catStage s (queryStage s items))) :=
    (stockStage_sublist s _).trans (maxStage_sublist s _)
  have hx' : x ∈ minStage s (catStage s (queryStage s items)) := hsub.subset hx
  unfold minStage at hx'
  rw [hp] at hx'
  exact (List.mem_filter.mp hx').2

theorem mem_preSort_max (s : FilterState) (items : List Item) (x : Item)
    (hx : x ∈ preSort s items) (b : FloatVal) (hp : parseFloatQ s.priceMax = some b) :
    decide (FloatVal.geQ b x.price) = true := by
  have hx' : x ∈ maxStage s (minStage s (catStage s (queryStage s items))) :=
    (stockStage_sublist s _).subset hx
  unfold maxStage at hx'
  rw [hp] at hx'
  exact (List.mem_filter.mp hx').2

theorem mem_preSort_stock (s : FilterState) (items : List Item) (x : Item)
    (hx : x ∈ preSort s items) (hs : s.inStockOnly = true) :
    x.inStock = true := by
  have hx' : x ∈ stockStage s (maxStage s (minStage s (catStage s (queryStage s items)))) := hx
  unfold stockStage at hx'
  rw [if_pos hs] at hx'
  exact (List.mem_filter.mp hx').2

/-- A second pass of the four filter stages over any list of survivors of
the first pass changes nothing. -/
theorem preSort_eq_self_of_subset (s : FilterState) (items l' : List Item)
    (hsub : ∀ x ∈ l', x ∈ preSort s items) :
    preSort s l' = l' := by
  have hq := queryStage_eq_self s l'
    (fun hq x hx => mem_preSort_query s items x (hsub x hx) hq)
  have hc := catStage_eq_self s l'
    (fun hc x hx => mem_preSort_cat s items x (hsub x hx) hc)
  have hm := minStage_eq_self s l'
    (fun b hp x hx => mem_preSort_min s items x (hsub x hx) b hp)
  have hM := maxStage_eq_self s l'
    (fun b hp x hx => mem_preSort_max s items x (hsub x hx) b hp)
  have hs := stockStage_eq_self s l'
    (fun hst x hx => mem_preSort_stock s items x (hsub x hx) hst)
  show stockStage s (maxStage s (minStage s (catStage s (queryStage s l')))) = l'
  rw [hq, hc, hm, hM, hs]

/-! ### C6 — filtering idempotence -/

/-- C6: applying `applyFilters` a second time with the same state removes
nothing and adds nothing — the outputs are permutations of each other (the
second pass's filters keep every survivor, and its sort only reorders). -/
theorem C6_filter_idempotent (items : List Item) (s : FilterState) :
    (applyFilters (applyFilters items s) s).Perm (applyFilters items s) := by
  have hsub : ∀ x ∈ applyFilters items s, x ∈ preSort s items := by
    intro x hx
    exact (sortStage_perm s (preSort s items)).mem_iff.mp hx
  have h1 : preSort s (applyFilters items s) = applyFilters items s :=
    preSort_eq_self_of_subset s items _ hsub
  show (sortStage s (preSort s (applyFilters items s))).Perm (applyFilters items s)
  rw [h1]
  exact sortStage_perm s _

/-! ### C10 — unknown sort mode falls through harmlessly -/

/-- C10: when `state.sort` is none of the five recognised modes, the
`switch` falls through: `applyFilters` returns exactly the filtered items,
a subsequence of the input (hence in original relative order), with no
error. -/
theorem C10_unknown_sort (items : List Item) (s : FilterState)
    (h : s.sort ∉ enumSorts) :
    applyFilters items s = preSort s items ∧
      (applyFilters items s).Sublist items := by
  have h1 : ¬ s.sort = "price_asc" := fun e => h (by rw [e]; decide)
  have h2 : ¬ s.sort = "price_desc" := fun e => h (by rw [e]; decide)
  have h3 : ¬ s.sort = "name_asc" := fun e => h (by rw [e]; decide)
  have h4 : ¬ s.sort = "name_desc" := fun e => h (by rw [e]; decide)
  have h5 : ¬ s.sort = "newest" := fun e => h (by rw [e]; decide)
  have hs : sortStage s (preSort s items) = preSort s items := by
    rw [sortStage, if_neg h1, if_neg h2, if_neg h3, if_neg h4, if_neg h5]
  refine ⟨hs, ?_⟩
  rw [show applyFilters items s = preSort s items from hs]
  exact preSort_sublist s items

/-- C10 (witness): with the decodable but unrecognised mode `"bogus"`, the
output is the filtered input unchanged. -/
theorem C10_witness :
    applyFilters
      [sampleItem "1" "a" 5 true "2024-01-01",
       sampleItem "2" "b" 4 true "2024-01-02"]
      { q := "", categories := [], priceMin := "", priceMax := "",
        inStockOnly := false, sort := "bogus" } =
      preSort
        { q := "", categories := [], priceMin := "", priceMax := "",
          inStockOnly := false, sort := "bogus" }
        [sampleItem "1" "a" 5 true "2024-01-01",
         sampleItem "2" "b" 4 true "2024-01-02"] ∧
    (applyFilters
      [sampleItem "1" "a" 5 true "2024-01-01",
       sampleItem "2" "b" 4 true "2024-01-02"]
      { q := "", categories := [], priceMin := "", priceMax := "",
        inStockOnly := false, sort := "bogus" }).Sublist
      [sampleItem "1" "a" 5 true "2024-01-01",
       sampleItem "2" "b" 4 true "2024-01-02"] :=
  C10_unknown_sort _ _ (by decide)

/-! ### Helper lemmas: the heap model -/

theorem readArr_alloc_of_lt (h : JSHeap) (v : List Item) (i : ℕ)
    (hi : i < h.arrs.length) :
    readArr (allocArr h v).1 i = readArr h i := by
  show ((h.arrs ++ [v]).get? i).getD [] = (h.arrs.get? i).getD []
  rw [List.get?_append hi]

theorem readArr_write_of_ne (h : JSHeap) (r : ℕ) (v : List Item) (i : ℕ)
    (hi : r ≠ i) :
    readArr (writeArr h r v) i = readArr h i := by
  show ((h.arrs.set r v).get? i).getD [] = (h.arrs.get? i).getD []
  rw [List.get?_set_ne v h.arrs hi]

/-- A filter step preserves the caller's array and keeps the local binding
fresh (address at least as large as before, inside the heap). -/
theorem stepH_inv (h0 : JSHeap) (allRef : ℕ) (c : Bool)
    (f : List Item → List Item) (st : JSHeap × ℕ)
    (hst : readArr st.1 allRef = readArr h0 allRef ∧ allRef < st.2 ∧
      st.2 < st.1.arrs.length) :
    readArr (stepH c f st).1 allRef = readArr h0 allRef ∧
      allRef < (stepH c f st).2 ∧
      (stepH c f st).2 < (stepH c f st).1.arrs.length := by
  obtain ⟨hh, rr⟩ := st
  obtain ⟨hr, h1, h2⟩ := hst
  simp only [stepH]
  by_cases hc : c = true
  · rw [if_pos hc]
    refine ⟨?_, ?_, ?_⟩
    · rw [readArr_alloc_of_lt hh _ allRef (lt_trans h1 h2)]
      exact hr
    · exact lt_trans h1 h2
    · show hh.arrs.length < (hh.arrs ++ [f (readArr hh rr)]).length
      simp
  · rw [if_neg hc]
    exact ⟨hr, h1, h2⟩

/-! ### C9 — `applyFilters` never mutates its input array -/

/-- C9: in the heap model, `applyFiltersH` leaves the caller's array
untouched: the local `items` starts as a fresh copy, each enabled filter
allocates a fresh array, and the only in-place mutation (`sort`) hits the
local array, whose address is distinct from the argument's. -/
theorem C9_no_input_mutation (h : JSHeap) (allRef : ℕ) (s : FilterState)
    (href : allRef < h.arrs.length) :
    readArr (applyFiltersH h allRef s).1 allRef = readArr h allRef := by
  have g1 : readArr (allocArr h (readArr h allRef)).1 allRef = readArr h allRef ∧
      allRef < (allocArr h (readArr h allRef)).2 ∧
      (allocArr h (readArr h allRef)).2 < (allocArr h (readArr h allRef)).1.arrs.length := by
    refine ⟨readArr_alloc_of_lt h _ allRef href, href, ?_⟩
    show h.arrs.length < (h.arrs ++ [readArr h allRef]).length
    simp
  have g2 := stepH_inv h allRef (!(jsToLower (jsTrim s.q) == ""))
    (fun l => l.filter (queryPred (jsToLower (jsTrim s.q)))) _ g1
  have g3 := stepH_inv h allRef (!(s.categories == []))
    (fun l => l.filter (catPred s)) _ g2
  have g4 := stepH_inv h allRef (parseFloatQ s.priceMin).isSome
    (fun l => minStage s l) _ g3
  have g5 := stepH_inv h allRef (parseFloatQ s.priceMax).isSome
    (fun l => maxStage s l) _ g4
  have g6 := stepH_inv h allRef s.inStockOnly
    (fun l => l.filter (fun it => it.inStock)) _ g5
  dsimp only [applyFiltersH]
  by_cases hw : sortsInPlace s = true
  · rw [if_pos hw, readArr_write_of_ne _ _ _ _ (Nat.ne_of_lt g6.2.1).symm]
    exact g6.1
  · rw [if_neg hw]
    exact g6.1

/-- C9 (witness): a one-array heap holding one item is unchanged at its
address by a full default-state run. -/
theorem C9_witness :
    readArr (applyFiltersH ⟨[[sampleItem "1" "a" 5 true "2024-01-01"]]⟩ 0
        defaultState).1 0 =
      readArr ⟨[[sampleItem "1" "a" 5 true "2024-01-01"]]⟩ 0 :=
  C9_no_input_mutation _ 0 defaultState (by decide)

/-! ### Helper lemmas: the validator -/

theorem str_append_ne_empty (a b : String) (ha : a.data ≠ []) : a ++ b ≠ "" := by
  intro h
  apply ha
  have hd := congrArg String.data h
  rw [String.data_append] at hd
  exact (List.append_eq_nil.mp hd).1

theorem itemMsg_ne_empty (i : ℕ) (sfx : String) :
    ("items[" ++ toString i ++ sfx) ≠ "" := by
  apply str_append_ne_empty
  intro h
  rw [String.data_append] at h
  exact (by decide : ("items[" : String).data ≠ []) (List.append_eq_nil.mp h).1

theorem itemMsg_empty_iff (i : ℕ) (it : JSVal) :
    itemMsg i it = "" ↔ itemOk it = true := by
  unfold itemMsg itemOk
  cases hb1 : typeOf (getFD it "id") == "string"
  case false => simp [hb1, itemMsg_ne_empty]
  case true =>
  cases hb2 : typeOf (getFD it "name") == "string"
  case false => simp [hb1, hb2, itemMsg_ne_empty]
  case true =>
  cases hb3 : typeOf (getFD it "description") == "string"
  case false => simp [hb1, hb2, hb3, itemMsg_ne_empty]
  case true =>
  cases hb4 : typeOf (getFD it "category") == "string"
  case false => simp [hb1, hb2, hb3, hb4, itemMsg_ne_empty]
  case true =>
  cases hb5 : typeOf (getFD it "price") == "number"
  case false => simp [hb1, hb2, hb3, hb4, hb5, itemMsg_ne_empty]
  case true =>
  cases hb6 : typeOf (getFD it "currency") == "string"
  case false => simp [hb1, hb2, hb3, hb4, hb5, hb6, itemMsg_ne_empty]
  case true =>
  cases hb7 : typeOf (getFD it "inStock") == "boolean"
  case false => simp [hb1, hb2, hb3, hb4, hb5, hb6, hb7, itemMsg_ne_empty]
  case true =>
  cases hb8 : isArr (getFD it "tags")
  case false => simp [hb1, hb2, hb3, hb4, hb5, hb6, hb7, hb8, itemMsg_ne_empty]
  case true =>
  cases hb9 : typeOf (getFD it "image") == "string"
  case false => simp [hb1, hb2, hb3, hb4, hb5, hb6, hb7, hb8, hb9, itemMsg_ne_empty]
  case true =>
  cases hb10 : typeOf (getFD it "createdAt") == "string"
  case false =>
    simp [hb1, hb2, hb3, hb4, hb5, hb6, hb7, hb8, hb9, hb10, itemMsg_ne_empty]
  case true =>
    simp [hb1, hb2, hb3, hb4, hb5, hb6, hb7, hb8, hb9, hb10]

theorem itemError_eq (i : ℕ) (it : JSVal) :
    itemError i it = if notNullish it then .ok (itemMsg i it) else .error () := by
  cases it <;> rfl

theorem validateItems_ok_empty_iff :
    ∀ (l : List JSVal) (n : ℕ),
      validateItems n l = .ok "" ↔
        ∀ it ∈ l, notNullish it = true ∧ itemOk it = true := by
  intro l
  induction l with
  | nil => intro n; simp [validateItems]
  | cons it t ih =>
    intro n
    simp only [validateItems, itemError_eq n it]
    cases hnn : notNullish it
    · simp [List.forall_mem_cons]
      intro h _
      rw [hnn] at h
      exact Bool.noConfusion h
    · by_cases hm : itemMsg n it = ""
      · have hb : (itemMsg n it == "") = true := by simp [hm]
        have hok := (itemMsg_empty_iff n it).mp hm
        simp [hb, ih (n + 1), List.forall_mem_cons, hok, hnn]
      · have hb : (itemMsg n it == "") = false := by simp [hm]
        have hnok : ¬ itemOk it = true :=
          fun hok => hm ((itemMsg_empty_iff n it).mpr hok)
        simp [hb, hm, List.forall_mem_cons, hnok, hnn]

theorem validateItems_skip :
    ∀ (pre : List JSVal) (n : ℕ) (l : List JSVal),
      (∀ x ∈ pre, notNullish x = true ∧ itemOk x = true) →
      validateItems n (pre ++ l) = validateItems (n + pre.length) l := by
  intro pre
  induction pre with
  | nil => intro n l _; simp [validateItems]
  | cons p t ih =>
    intro n l hpre
    have hnn : notNullish p = true := (hpre p (List.mem_cons_self p t)).1
    have hm : itemMsg n p = "" :=
      (itemMsg_empty_iff n p).mpr (hpre p (List.mem_cons_self p t)).2
    have hb : (itemMsg n p == "") = true := by simp [hm]
    have hlen : n + 1 + t.length = n + (p :: t).length := by
      simp [List.length_cons]
      omega
    simp only [List.cons_append, validateItems, itemError_eq n p, hnn, if_true, hb,
      List.append_eq]
    rw [ih (n + 1) l (fun x hx => hpre x (List.mem_cons_of_mem p hx)), hlen]

/-! ### C7 — validator first-failure contract -/

/-- C7 (counterexample): a dataset — valid JSON — whose item 0 is `null`:
the claim promises the validator returns a message naming the first
offending field (`items[0].id`), but the source instead throws a TypeError
at the very first field access `typeof it.id` (src/app.js line 80),
returning no message at all. -/
theorem C7_counterexample :
    validateSchema sampleNullItemDoc = Except.error () ∧
      (Except.error () : Except Unit String) ≠ Except.ok "items[0].id must be string" := by
  constructor
  · rfl
  · intro h
    exact Except.noConfusion h

/-- C7 (amended): `validateSchema` returns `.ok ""` exactly when the root
is a truthy object, `items` is an array, `meta.lastUpdated` is a string
and every item is non-nullish and passes its ten type checks; a dataset
failing only the `meta.lastUpdated` check is rejected with the message
naming that field; a dataset whose first offending item `i` is non-null
and fails only its `price` check (its earlier fields well-typed, the items
before it valid) is rejected with the message naming `items[i].price`; but
— the amendment the counterexample forces — when the first offending item
is `null` (or `undefined`), the validator throws a TypeError at the first
field access instead of returning a message (the loader's `catch` turns it
into a load-failure banner). -/
theorem C7_validator_contract (data : JSVal) :
    (validateSchema data = .ok "" ↔
      (truthy data = true ∧ typeOf data = "object" ∧
       isArr (getFD data "items") = true ∧
       truthy (getFD data "meta") = true ∧
       typeOf (getFD (getFD data "meta") "lastUpdated") = "string" ∧
       ∀ it ∈ asArr (getFD data "items"), notNullish it = true ∧ itemOk it = true)) ∧
    (truthy data = true → typeOf data = "object" →
     isArr (getFD data "items") = true →
     (truthy (getFD data "meta") = false ∨
       typeOf (getFD (getFD data "meta") "lastUpdated") ≠ "string") →
     validateSchema data = .ok "`meta.lastUpdated` must be a string (YYYY-MM-DD)") ∧
    (∀ (pre : List JSVal) (it : JSVal) (rest : List JSVal),
     asArr (getFD data "items") = pre ++ it :: rest →
     truthy data = true → typeOf data = "object" →
     isArr (getFD data "items") = true →
     truthy (getFD data "meta") = true →
     typeOf (getFD (getFD data "meta") "lastUpdated") = "string" →
     (∀ x ∈ pre, notNullish x = true ∧ itemOk x = true) →
     notNullish it = true →
     typeOf (getFD it "id") = "string" →
     typeOf (getFD it "name") = "string" →
     typeOf (getFD it "description") = "string" →
     typeOf (getFD it "category") = "string" →
     typeOf (getFD it "price") ≠ "number" →
     validateSchema data =
       .ok ("items[" ++ toString pre.length ++ "].price must be number")) ∧
    (∀ (pre : List JSVal) (it : JSVal) (rest : List JSVal),
     asArr (getFD data "items") = pre ++ it :: rest →
     truthy data = true → typeOf data = "object" →
     isArr (getFD data "items") = true →
     truthy (getFD data "meta") = true →
     typeOf (getFD (getFD data "meta") "lastUpdated") = "string" →
     (∀ x ∈ pre, notNullish x = true ∧ itemOk x = true) →
     notNullish it = false →
     validateSchema data = .error ()) := by
  refine ⟨?_, ?_, ?_, ?_⟩
  · by_cases h1 : truthy data = true
    · by_cases h2 : typeOf data = "object"
      · by_cases h3 : isArr (getFD data "items") = true
        · by_cases h4 : truthy (getFD data "meta") = true
          · by_cases h5 : typeOf (getFD (getFD data "meta") "lastUpdated") = "string"
            · have hc1 : (!(truthy data) || !(typeOf data == "object")) = false := by
                simp [h1, h2]
              have hc3 : (!(truthy (getFD data "meta")) ||
                  !(typeOf (getFD (getFD data "meta") "lastUpdated") == "string")) = false := by
                simp [h4, h5]
              simp [validateSchema, hc1, h3, hc3, validateItems_ok_empty_iff,
                h1, h2, h4, h5]
            · have hc3 : (!(truthy (getFD data "meta")) ||
                  !(typeOf (getFD (getFD data "meta") "lastUpdated") == "string")) = true := by
                simp [h5]
              have hc1 : (!(truthy data) || !(typeOf data == "object")) = false := by
                simp [h1, h2]
              simp [validateSchema, hc1, h3, hc3, h5]
          · have hc3 : (!(truthy (getFD data "meta")) ||
                !(typeOf (getFD (getFD data "meta") "lastUpdated") == "string")) = true := by
              simp [h4]
            have hc1 : (!(truthy data) || !(typeOf data == "object")) = false := by
              simp [h1, h2]
            simp [validateSchema, hc1, h3, hc3, h4]
        · have hc1 : (!(truthy data) || !(typeOf data == "object")) = false := by
            simp [h1, h2]
          simp [validateSchema, hc1, h3]
      · have hc1 : (!(truthy data) || !(typeOf data == "object")) = true := by
          simp [h2]
        simp [validateSchema, hc1, h2]
    · have hc1 : (!(truthy data) || !(typeOf data == "object")) = true := by
        simp [h1]
      simp [validateSchema, hc1, h1]
  · intro h1 h2 h3 hmeta
    have hc1 : (!(truthy data) || !(typeOf data == "object")) = false := by
      simp [h1, h2]
    have hc3 : (!(truthy (getFD data "meta")) ||
        !(typeOf (getFD (getFD data "meta") "lastUpdated") == "string")) = true := by
      rcases hmeta with h | h <;> simp [h]
    simp [validateSchema, hc1, h3, hc3]
  · intro pre it rest hsplit h1 h2 h3 h4 h5 hpre hnnit hid hname hdesc hcat hprice
    have hc1 : (!(truthy data) || !(typeOf data == "object")) = false := by
      simp [h1, h2]
    have hc3 : (!(truthy (getFD data "meta")) ||
        !(typeOf (getFD (getFD data "meta") "lastUpdated") == "string")) = false := by
      simp [h4, h5]
    have herr : itemMsg pre.length it =
        "items[" ++ toString pre.length ++ "].price must be number" := by
      unfold itemMsg
      rw [if_neg (by simp [hid]), if_neg (by simp [hname]), if_neg (by simp [hdesc]),
        if_neg (by simp [hcat]), if_pos (by simp [hprice])]
    have hv : validateItems 0 (asArr (getFD data "items")) =
        .ok ("items[" ++ toString pre.length ++ "].price must be number") := by
      rw [hsplit, validateItems_skip pre 0 (it :: rest) hpre]
      have hne : itemMsg pre.length it ≠ "" := by
        rw [herr]
        exact itemMsg_ne_empty pre.length "].price must be number"
      simp only [validateItems, Nat.zero_add, itemError_eq pre.length it, hnnit, if_true]
      simp [hne, herr]
      intro habs
      exact absurd habs (itemMsg_ne_empty pre.length "].price must be number")
    simp [validateSchema, hc1, h3, hc3, hv]
  · intro pre it rest hsplit h1 h2 h3 h4 h5 hpre hnull
    have hc1 : (!(truthy data) || !(typeOf data == "object")) = false := by
      simp [h1, h2]
    have hc3 : (!(truthy (getFD data "meta")) ||
        !(typeOf (getFD (getFD data "meta") "lastUpdated") == "string")) = false := by
      simp [h4, h5]
    have hv : validateItems 0 (asArr (getFD data "items")) = .error () := by
      rw [hsplit, validateItems_skip pre 0 (it :: rest) hpre]
      simp only [validateItems, Nat.zero_add, itemError_eq pre.length it, hnull]
      rfl
    simp [validateSchema, hc1, h3, hc3, hv]

/-- C7 (witness): the dataset with a non-object `meta` is rejected naming
`meta.lastUpdated`, and the dataset whose non-null item 1 lacks `price` is
rejected naming `items[1].price`. -/
theorem C7_witness :
    validateSchema sampleBadMetaDoc =
      .ok "`meta.lastUpdated` must be a string (YYYY-MM-DD)" ∧
    validateSchema samplePriceDoc = .ok "items[1].price must be number" := by
  constructor
  · exact (C7_validator_contract sampleBadMetaDoc).2.1 rfl rfl rfl (Or.inl rfl)
  · exact (C7_validator_contract samplePriceDoc).2.2.1
      [sampleGoodItem] sampleNoPriceItem [] rfl rfl rfl rfl rfl rfl
      (by decide) rfl rfl rfl rfl rfl (by decide)

/-! ### C8 — loader all-or-nothing fallback -/

/-- C8: on any transport failure (non-success HTTP status, network error,
parse error) or any schema-validation failure — a returned message or a
TypeError thrown by the validator, both covered by
`validateSchema doc ≠ .ok ""` — `loadData` reports exactly one error
message and sets the inventory to exactly the empty inventory; on a
successful fetch of a valid document it reports nothing and sets the
inventory to that document verbatim. -/
theorem C8_loader_fallback (outcome : FetchOutcome) :
    (∀ status : ℕ, outcome = .httpError status →
      (loadData outcome).1.length = 1 ∧ (loadData outcome).2 = emptyInventory) ∧
    (∀ msg : String, outcome = .networkError msg →
      (loadData outcome).1.length = 1 ∧ (loadData outcome).2 = emptyInventory) ∧
    (∀ msg : String, outcome = .parseError msg →
      (loadData outcome).1.length = 1 ∧ (loadData outcome).2 = emptyInventory) ∧
    (∀ doc : JSVal, outcome = .success doc → validateSchema doc ≠ .ok "" →
      (loadData outcome).1.length = 1 ∧ (loadData outcome).2 = emptyInventory) ∧
    (∀ doc : JSVal, outcome = .success doc → validateSchema doc = .ok "" →
      (loadData outcome).1 = [] ∧ (loadData outcome).2 = doc) := by
  refine ⟨?_, ?_, ?_, ?_, ?_⟩
  · intro status h
    subst h
    exact ⟨rfl, rfl⟩
  · intro msg h
    subst h
    exact ⟨rfl, rfl⟩
  · intro msg h
    subst h
    exact ⟨rfl, rfl⟩
  · intro doc h hv
    subst h
    cases hve : validateSchema doc with
    | error e => constructor <;> simp [loadData, hve]
    | ok e =>
      have he : (e == "") = false := by
        have hne : e ≠ "" := fun h0 => hv (by rw [hve, h0])
        simp [hne]
      constructor <;> simp [loadData, hve, he]
  · intro doc h hv
    subst h
    constructor <;> simp [loadData, hv]

/-- C8 (witness): an HTTP 404 yields one error and the empty inventory; a
fetch of the valid sample dataset yields no error and that document
verbatim. -/
theorem C8_witness :
    ((loadData (.httpError 404)).1.length = 1 ∧
      (loadData (.httpError 404)).2 = emptyInventory) ∧
    ((loadData (.success sampleGoodDoc)).1 = [] ∧
      (loadData (.success sampleGoodDoc)).2 = sampleGoodDoc) :=
  ⟨(C8_loader_fallback (.httpError 404)).1 404 rfl,
   (C8_loader_fallback (.success sampleGoodDoc)).2.2.2.2 sampleGoodDoc rfl rfl⟩

end Catalog
